import Mathlib

/-!
Verification of the 2048-style grid engine in `src/game/game_logic.py`
(class `Game2048`) of the `number_game` repository.

The Python grid stores cells that are either the integer `0` (empty), a
positive integer tile, or the string `'M'` (the special marker tile).  We
embed a cell as an inductive type, a grid as a list of rows, and each
method of `Game2048` as a Lean function.  The only randomness in the
engine is `add_new_tile` (`random.choice` over the empty cells and the
2-vs-4 value draw); it is modelled by an explicit choice parameter
`c : Nat × Bool` where `c.1 % (number of empty cells)` selects the cell
(every cell is reachable by some `c.1`) and `c.2 = true` selects value 2
(the `rand < 0.9` branch), `c.2 = false` value 4.
-/

namespace NumberGame

/-- A cell of the grid: `num 0` is the empty cell `0`, `num n` a numeric
tile, `M` the special marker tile `'M'`. -/
inductive Cell where
  | num (n : Nat)
  | M
deriving DecidableEq, Repr

/-- The doubled value of a numeric cell (`new_row[i] * 2`); unused for `M`. -/
def dblVal : Cell → Nat
  | Cell.num n => 2 * n
  | Cell.M => 0

/-- One row compaction step of `move_left`: keep every value that is not
`0`, in order (`if val != 0 and val != 'M': append(val) elif val == 'M':
append('M')`). -/
def compactRow (row : List Cell) : List Cell :=
  row.filter (fun v => v ≠ Cell.num 0)

/-- The merge scan of `move_left` on a compacted row.  Returns the merged
row together with the `special_merged` flag (an `'M'`/`'M'` pair merged
into `0`) and the flag recording that some merge produced exactly 2048
(the `self.won = True` trigger). -/
def mergeRow : List Cell → List Cell × Bool × Bool
  | [] => ([], false, false)
  | [a] => ([a], false, false)
  | a :: b :: rest =>
    if a = b ∧ a ≠ Cell.M then
      let r := mergeRow rest
      (Cell.num (dblVal a) :: r.1, r.2.1, r.2.2 || decide (dblVal a = 2048))
    else if a = Cell.M ∧ b = Cell.M then
      let r := mergeRow rest
      (Cell.num 0 :: r.1, true, r.2.2)
    else
      let r := mergeRow (b :: rest)
      (a :: r.1, r.2.1, r.2.2)

/-- One full row of `move_left`: compact, merge, then pad with zeros on the
right (`merged.extend([0] * (self.size - len(merged)))`; like Python's
`[0] * negative`, `List.replicate` of a truncated subtraction is empty). -/
def moveRowLeft (n : Nat) (row : List Cell) : List Cell × Bool × Bool :=
  let r := mergeRow (compactRow row)
  (r.1 ++ List.replicate (n - r.1.length) (Cell.num 0), r.2.1, r.2.2)

/-- Result of the row loop of `move_left`: the new grid, the `moved` flag
(`merged != row` for some row), the `special_merged` flag, and the
2048-merge flag. -/
structure MoveOut where
  grid : List (List Cell)
  moved : Bool
  special : Bool
  won2048 : Bool
deriving DecidableEq, Repr

/-- The row loop of `move_left` over the whole grid. -/
def moveLeftRows (n : Nat) (g : List (List Cell)) : MoveOut where
  grid := g.map (fun row => (moveRowLeft n row).1)
  moved := g.any (fun row => (moveRowLeft n row).1 ≠ row)
  special := g.any (fun row => (moveRowLeft n row).2.1)
  won2048 := g.any (fun row => (moveRowLeft n row).2.2)

/-- `self.grid[i][j]` (total version; out-of-range reads default to the
empty cell, which never happens on the well-formed grids the methods are
run on). -/
def cellAt (g : List (List Cell)) (i j : Nat) : Cell :=
  (g.getD i []).getD j (Cell.num 0)

/-- `self.grid[i][j] = v`. -/
def setCell (g : List (List Cell)) (i j : Nat) (v : Cell) : List (List Cell) :=
  g.set i ((g.getD i []).set j v)

/-- The `empty_cells` list of `add_new_tile` / `get_empty_cells`: all
`(i, j)` with `grid[i][j] == 0`, in row-major order. -/
def emptyCellsOf (n : Nat) (g : List (List Cell)) : List (Nat × Nat) :=
  (List.range n).flatMap fun i =>
    ((List.range n).filter fun j => cellAt g i j = Cell.num 0).map fun j => (i, j)

/-- `is_game_over` restricted to its inputs (the grid and `self.size`):
returns `false` as soon as some row contains `0` or contains `'M'`;
otherwise scans all positions for an equal right/down neighbour or for an
`'M'` with an adjacent `'M'`. -/
def hasAdjacentM (n : Nat) (g : List (List Cell)) (i j : Nat) : Bool :=
  ([(-1, 0), (1, 0), (0, -1), (0, 1)] : List (Int × Int)).any fun d =>
    let ni : Int := (i : Int) + d.1
    let nj : Int := (j : Int) + d.2
    0 ≤ ni && ni < (n : Int) && 0 ≤ nj && nj < (n : Int)
      && cellAt g ni.toNat nj.toNat = Cell.M

/-- `is_game_over` as a function of `self.size` and `self.grid`. -/
def isGameOverG (n : Nat) (g : List (List Cell)) : Bool :=
  if g.any (fun row => row.any (fun v => v = Cell.num 0) || row.any (fun v => v = Cell.M)) then
    false
  else
    (List.range n).all fun i => (List.range n).all fun j =>
      let current := cellAt g i j
      (!(decide (j + 1 < n) && decide (cellAt g i (j + 1) = current)))
      && (!(decide (i + 1 < n) && decide (cellAt g (i + 1) j = current)))
      && (!(decide (current = Cell.M) && hasAdjacentM n g i j))

/-- The mutable state of a `Game2048` instance (the fields read or written
by the engine methods; `special_tiles` is written once in `__init__` and
never read, and `save_dir` is file-system glue, so both are omitted). -/
structure GameState where
  size : Nat
  grid : List (List Cell)
  score : Nat
  high_score : Nat
  moves : Nat
  game_over : Bool
  won : Bool
deriving DecidableEq, Repr

/-- `is_game_over` on a state. -/
def isGameOver (s : GameState) : Bool :=
  isGameOverG s.size s.grid

/-- `calculate_total_score`: sum of all positive integer cell values
(`isinstance(val, int) and val > 0`; the empty cell `num 0` contributes
nothing, exactly as in the source). -/
def cellScoreVal : Cell → Nat
  | Cell.num n => n
  | Cell.M => 0

def rowScore (row : List Cell) : Nat :=
  (row.map cellScoreVal).sum

def calculateTotalScore (g : List (List Cell)) : Nat :=
  (g.map rowScore).sum

/-- `update_score`: recompute `score` from the grid, then raise
`high_score` if exceeded. -/
def updateScore (s : GameState) : GameState :=
  let sc := calculateTotalScore s.grid
  { s with score := sc, high_score := if sc > s.high_score then sc else s.high_score }

/-- `add_new_tile`: pick an empty cell and write 2 (`rand < 0.9`) or 4.
When no empty cell exists, set `game_over` if `is_game_over()` holds and
report `false`. -/
def addNewTile (c : Nat × Bool) (s : GameState) : Bool × GameState :=
  let empty := emptyCellsOf s.size s.grid
  if empty.isEmpty then
    if isGameOver s then (false, { s with game_over := true }) else (false, s)
  else
    let pos := empty.getD (c.1 % empty.length) (0, 0)
    let value : Nat := if c.2 then 2 else 4
    (true, { s with grid := setCell s.grid pos.1 pos.2 (Cell.num value) })

/-- `clear_surrounding_tiles`: find every `'M'` position of the current
grid, then zero the 3×3 neighbourhood of each, adding each integer found
there to `score`.  (In `move_left` this runs on the *old* grid, which is
then replaced by `new_grid`, and `update_score` later recomputes `score`
from the new grid.) -/
def clearCellStep (p : Nat × Nat) (st : GameState) (d : Int × Int) : GameState :=
  let nr : Int := (p.1 : Int) + d.1
  let nc : Int := (p.2 : Int) + d.2
  if 0 ≤ nr ∧ nr < (st.size : Int) ∧ 0 ≤ nc ∧ nc < (st.size : Int) then
    let st2 := match cellAt st.grid nr.toNat nc.toNat with
      | Cell.num v => { st with score := st.score + v }
      | Cell.M => st
    { st2 with grid := setCell st2.grid nr.toNat nc.toNat (Cell.num 0) }
  else st

def clearAroundM (st : GameState) (p : Nat × Nat) : GameState :=
  (([-1, 0, 1] : List Int).flatMap fun dr =>
      ([-1, 0, 1] : List Int).map fun dc => (dr, dc)).foldl (clearCellStep p) st

def clearSurroundingTiles (s : GameState) : GameState :=
  let mpos := (List.range s.size).flatMap fun i =>
    ((List.range s.size).filter fun j => cellAt s.grid i j = Cell.M).map fun j => (i, j)
  mpos.foldl clearAroundM s

/-- `check_game_over`: set the `game_over` flag when `is_game_over()`. -/
def checkGameOver (s : GameState) : GameState :=
  if isGameOver s then { s with game_over := true } else s

/-- `move_left`.  The 2048 flag is folded into `won` during the row scan
(before the commit test, as in the source); on a change the grid is
committed, `moves` incremented, a tile spawned, the score recomputed and
the game-over flag re-checked.  Returns `moved or special_merged`. -/
def moveLeft (c : Nat × Bool) (s : GameState) : Bool × GameState :=
  let o := moveLeftRows s.size s.grid
  let s0 := { s with won := s.won || o.won2048 }
  if o.moved || o.special then
    let s1 := if o.special then clearSurroundingTiles s0 else s0
    let s2 := { s1 with grid := o.grid, moves := s1.moves + 1 }
    let s3 := (addNewTile c s2).2
    let s4 := updateScore s3
    (o.moved || o.special, checkGameOver s4)
  else
    (o.moved || o.special, s0)

/-- `zip(*grid)`: the transpose, truncated to the shortest row (the
number of columns Python's `zip` yields). -/
def transposeG (g : List (List Cell)) : List (List Cell) :=
  (List.range (((g.map List.length).min?).getD 0)).map fun j =>
    g.map fun row => row.getD j (Cell.num 0)

/-- `move_right`: reverse every row, `move_left`, reverse back. -/
def moveRight (c : Nat × Bool) (s : GameState) : Bool × GameState :=
  let s1 := { s with grid := s.grid.map List.reverse }
  let r := moveLeft c s1
  (r.1, { r.2 with grid := r.2.grid.map List.reverse })

/-- `move_up`: transpose, `move_left`, transpose back. -/
def moveUp (c : Nat × Bool) (s : GameState) : Bool × GameState :=
  let s1 := { s with grid := transposeG s.grid }
  let r := moveLeft c s1
  (r.1, { r.2 with grid := transposeG r.2.grid })

/-- `move_down`: transpose, reverse every row, `move_left`, reverse every
row, transpose back. -/
def moveDown (c : Nat × Bool) (s : GameState) : Bool × GameState :=
  let s1 := { s with grid := (transposeG s.grid).map List.reverse }
  let r := moveLeft c s1
  (r.1, { r.2 with grid := transposeG (r.2.grid.map List.reverse) })

inductive Dir where
  | left | right | up | down
deriving DecidableEq, Repr

def applyMove (d : Dir) (c : Nat × Bool) (s : GameState) : Bool × GameState :=
  match d with
  | Dir.left => moveLeft c s
  | Dir.right => moveRight c s
  | Dir.up => moveUp c s
  | Dir.down => moveDown c s

/-- `__init__(size)`: zero grid, two spawned tiles, initial score.  The
constructor performs no validation of `size` whatsoever. -/
def initGame (size : Nat) (c1 c2 : Nat × Bool) : GameState :=
  let s0 : GameState :=
    { size := size
      grid := List.replicate size (List.replicate size (Cell.num 0))
      score := 0, high_score := 0, moves := 0, game_over := false, won := false }
  let s1 := (addNewTile c1 s0).2
  let s2 := (addNewTile c2 s1).2
  updateScore s2

/-- The dictionary handed to `set_state` (all keys the method reads; a
missing `high_score` key defaults to 0, which the `high_score` field of
this record can also represent). -/
structure ImportedState where
  grid : List (List Cell)
  score : Nat
  high_score : Nat
  moves : Nat
  game_over : Bool
  won : Bool
  size : Nat
deriving DecidableEq, Repr

/-- `set_state`: every field is overwritten from the imported record,
except `high_score` which takes the maximum of old and incoming. -/
def setStateOp (st : ImportedState) (s : GameState) : GameState :=
  { grid := st.grid
    score := st.score
    high_score := max s.high_score st.high_score
    moves := st.moves
    game_over := st.game_over
    won := st.won
    size := st.size }

/-- `reset`: zero the grid and the per-game fields (`high_score` is kept),
spawn two tiles, recompute the score. -/
def resetGame (c1 c2 : Nat × Bool) (s : GameState) : GameState :=
  let s0 := { s with
    grid := List.replicate s.size (List.replicate s.size (Cell.num 0))
    score := 0, moves := 0, game_over := false, won := false }
  let s1 := (addNewTile c1 s0).2
  let s2 := (addNewTile c2 s1).2
  updateScore s2

/-- Structural well-formedness of a grid: `n` rows, each of length `n`
(the invariant the Python code maintains for `self.grid`). -/
def WFG (n : Nat) (g : List (List Cell)) : Prop :=
  g.length = n ∧ ∀ row ∈ g, row.length = n

instance (n : Nat) (g : List (List Cell)) : Decidable (WFG n g) := by
  unfold WFG; infer_instance

/-- Spec wording: the grid has no empty cell. -/
def specNoEmpty (n : Nat) (g : List (List Cell)) : Bool :=
  (List.range n).all fun i => (List.range n).all fun j =>
    !(decide (cellAt g i j = Cell.num 0))

/-- Spec wording: the grid contains no special marker anywhere. -/
def specNoMarker (n : Nat) (g : List (List Cell)) : Bool :=
  (List.range n).all fun i => (List.range n).all fun j =>
    !(decide (cellAt g i j = Cell.M))

/-- Spec wording: no two horizontally or vertically adjacent cells share
the same value. -/
def specNoAdjEqual (n : Nat) (g : List (List Cell)) : Bool :=
  (List.range n).all fun i => (List.range n).all fun j =>
    (!(decide (j + 1 < n) && decide (cellAt g i (j + 1) = cellAt g i j)))
    && (!(decide (i + 1 < n) && decide (cellAt g (i + 1) j = cellAt g i j)))

/-- Spec wording: no special-marker cell is adjacent (horizontally or
vertically) to another special-marker cell. -/
def specNoAdjMarker (n : Nat) (g : List (List Cell)) : Bool :=
  (List.range n).all fun i => (List.range n).all fun j =>
    !(decide (cellAt g i j = Cell.M) && hasAdjacentM n g i j)

/-- A full 2×2 grid holding one marker, no equal neighbours and (a
fortiori) no adjacent marker pair. -/
def markerFullGrid : List (List Cell) :=
  [[Cell.M, Cell.num 2], [Cell.num 4, Cell.num 8]]

/-- C1, counterexample.  `markerFullGrid` satisfies all three conjuncts of
the claimed terminal condition (no empty cell, no equal adjacent values,
no adjacent marker pair), yet `is_game_over` returns `false`: the source
returns `False` for *any* grid containing `'M'` (`if 'M' in row: return
False`), so the claimed equivalence fails. -/
theorem isGameOver_marker_counterexample :
    specNoEmpty 2 markerFullGrid = true
      ∧ specNoAdjEqual 2 markerFullGrid = true
      ∧ specNoAdjMarker 2 markerFullGrid = true
      ∧ isGameOverG 2 markerFullGrid = false := by
  decide

/-- The 4×4 grid of concrete scenario C, with a numeric `2` directly below
the left marker (inside the claimed 3×3 clearing zone of both markers). -/
def scenarioCGrid : List (List Cell) :=
  [[Cell.M, Cell.M, Cell.num 4, Cell.num 0],
   [Cell.num 2, Cell.num 0, Cell.num 0, Cell.num 0],
   [Cell.num 0, Cell.num 0, Cell.num 0, Cell.num 0],
   [Cell.num 0, Cell.num 0, Cell.num 0, Cell.num 0]]

def scenarioCState : GameState :=
  { size := 4, grid := scenarioCGrid, score := 6, high_score := 6,
    moves := 0, game_over := false, won := false }

/-- C2, evaluation at the failing input.  Moving `[['M','M',4,0],
[2,0,0,0],…]` left *does* merge the marker pair (`moved = true`), but the
claimed marker-clear never takes effect: `clear_surrounding_tiles` runs on
the old grid, which is then discarded by `self.grid = new_grid`, and
`update_score` recomputes the score from the surviving tiles.  The merged
row is `[0,4,0,0]` (the `4` survives), the `2` below the markers survives,
and the final score is the plain tile sum `8 = 2 + 4 + 2(spawned)` with no
bonus: the resulting row is not `[0,0,0,0]` and no neighbourhood cell is
zeroed. -/
theorem marker_clear_discarded_at_scenarioC :
    (moveLeftRows 4 scenarioCGrid).grid
        = [[Cell.num 0, Cell.num 4, Cell.num 0, Cell.num 0],
           [Cell.num 2, Cell.num 0, Cell.num 0, Cell.num 0],
           [Cell.num 0, Cell.num 0, Cell.num 0, Cell.num 0],
           [Cell.num 0, Cell.num 0, Cell.num 0, Cell.num 0]]
      ∧ (moveLeft (0, true) scenarioCState).1 = true
      ∧ (moveLeft (0, true) scenarioCState).2.grid
        = [[Cell.num 2, Cell.num 4, Cell.num 0, Cell.num 0],
           [Cell.num 2, Cell.num 0, Cell.num 0, Cell.num 0],
           [Cell.num 0, Cell.num 0, Cell.num 0, Cell.num 0],
           [Cell.num 0, Cell.num 0, Cell.num 0, Cell.num 0]]
      ∧ (moveLeft (0, true) scenarioCState).2.score = 8 := by
  decide

/-- C5, counterexample.  `set_state` assigns `self.won = state['won']`
unconditionally, so importing a not-yet-won record reverts `won` from
`true` to `false`. -/
theorem won_reverted_by_set_state_counterexample :
    ({ size := 1, grid := [[Cell.num 2048]], score := 2048, high_score := 2048,
       moves := 9, game_over := false, won := true } : GameState).won = true
      ∧ (setStateOp
          { grid := [[Cell.num 2]], score := 2, high_score := 0, moves := 3,
            game_over := false, won := false, size := 1 }
          { size := 1, grid := [[Cell.num 2048]], score := 2048, high_score := 2048,
            moves := 9, game_over := false, won := true }).won = false := by
  decide

/-- C6, counterexample.  `__init__` performs no size validation: at
`size = 1` construction succeeds and allocates a 1×1 grid (one tile
spawns, the second spawn finds no empty cell and marks the game over) —
no invalid-configuration failure exists in the code. -/
theorem init_size_one_constructs :
    initGame 1 (0, true) (0, true)
      = { size := 1, grid := [[Cell.num 2]], score := 2, high_score := 2,
          moves := 0, game_over := true, won := false } := by
  decide

/-! ### Field-preservation lemmas for the state-mutating steps -/

theorem updateScore_size (s : GameState) : (updateScore s).size = s.size := rfl

theorem updateScore_grid (s : GameState) : (updateScore s).grid = s.grid := rfl

theorem updateScore_moves (s : GameState) : (updateScore s).moves = s.moves := rfl

theorem updateScore_won (s : GameState) : (updateScore s).won = s.won := rfl

theorem updateScore_game_over (s : GameState) : (updateScore s).game_over = s.game_over := rfl

theorem updateScore_score (s : GameState) : (updateScore s).score = calculateTotalScore s.grid := rfl

theorem updateScore_high_le (s : GameState) : s.high_score ≤ (updateScore s).high_score := by
  unfold updateScore
  dsimp only
  split
  · omega
  · exact Nat.le_refl _

theorem checkGameOver_won (s : GameState) : (checkGameOver s).won = s.won := by
  unfold checkGameOver; split <;> rfl

theorem checkGameOver_size (s : GameState) : (checkGameOver s).size = s.size := by
  unfold checkGameOver; split <;> rfl

theorem checkGameOver_grid (s : GameState) : (checkGameOver s).grid = s.grid := by
  unfold checkGameOver; split <;> rfl

theorem checkGameOver_score (s : GameState) : (checkGameOver s).score = s.score := by
  unfold checkGameOver; split <;> rfl

theorem checkGameOver_high (s : GameState) : (checkGameOver s).high_score = s.high_score := by
  unfold checkGameOver; split <;> rfl

theorem addNewTile_won (c : Nat × Bool) (s : GameState) : ((addNewTile c s).2).won = s.won := by
  unfold addNewTile
  dsimp only
  split
  · split <;> rfl
  · rfl

theorem addNewTile_size (c : Nat × Bool) (s : GameState) : ((addNewTile c s).2).size = s.size := by
  unfold addNewTile
  dsimp only
  split
  · split <;> rfl
  · rfl

theorem addNewTile_high (c : Nat × Bool) (s : GameState) :
    ((addNewTile c s).2).high_score = s.high_score := by
  unfold addNewTile
  dsimp only
  split
  · split <;> rfl
  · rfl

theorem clearCellStep_won (p : Nat × Nat) (st : GameState) (d : Int × Int) :
    (clearCellStep p st d).won = st.won := by
  unfold clearCellStep
  dsimp only
  split
  · split <;> rfl
  · rfl

theorem clearCellStep_high (p : Nat × Nat) (st : GameState) (d : Int × Int) :
    (clearCellStep p st d).high_score = st.high_score := by
  unfold clearCellStep
  dsimp only
  split
  · split <;> rfl
  · rfl

theorem clearCellStep_size (p : Nat × Nat) (st : GameState) (d : Int × Int) :
    (clearCellStep p st d).size = st.size := by
  unfold clearCellStep
  dsimp only
  split
  · split <;> rfl
  · rfl

theorem clearCellStep_moves (p : Nat × Nat) (st : GameState) (d : Int × Int) :
    (clearCellStep p st d).moves = st.moves := by
  unfold clearCellStep
  dsimp only
  split
  · split <;> rfl
  · rfl

theorem foldl_clearCellStep_pres (p : Nat × Nat) (l : List (Int × Int)) (st : GameState) :
    (l.foldl (clearCellStep p) st).won = st.won
      ∧ (l.foldl (clearCellStep p) st).high_score = st.high_score
      ∧ (l.foldl (clearCellStep p) st).size = st.size
      ∧ (l.foldl (clearCellStep p) st).moves = st.moves := by
  induction l generalizing st with
  | nil => exact ⟨rfl, rfl, rfl, rfl⟩
  | cons d rest ih =>
    simp only [List.foldl_cons]
    refine ⟨?_, ?_, ?_, ?_⟩
    · rw [(ih (clearCellStep p st d)).1, clearCellStep_won]
    · rw [(ih (clearCellStep p st d)).2.1, clearCellStep_high]
    · rw [(ih (clearCellStep p st d)).2.2.1, clearCellStep_size]
    · rw [(ih (clearCellStep p st d)).2.2.2, clearCellStep_moves]

theorem clearAroundM_pres (st : GameState) (p : Nat × Nat) :
    (clearAroundM st p).won = st.won
      ∧ (clearAroundM st p).high_score = st.high_score
      ∧ (clearAroundM st p).size = st.size
      ∧ (clearAroundM st p).moves = st.moves :=
  foldl_clearCellStep_pres p _ st

theorem clearSurroundingTiles_pres (s : GameState) :
    (clearSurroundingTiles s).won = s.won
      ∧ (clearSurroundingTiles s).high_score = s.high_score
      ∧ (clearSurroundingTiles s).size = s.size
      ∧ (clearSurroundingTiles s).moves = s.moves := by
  unfold clearSurroundingTiles
  generalize ((List.range s.size).flatMap fun i =>
    ((List.range s.size).filter fun j => cellAt s.grid i j = Cell.M).map fun j => (i, j)) = l
  induction l generalizing s with
  | nil => exact ⟨rfl, rfl, rfl, rfl⟩
  | cons p rest ih =>
    simp only [List.foldl_cons]
    obtain ⟨h1, h2, h3, h4⟩ := ih (clearAroundM s p)
    obtain ⟨g1, g2, g3, g4⟩ := clearAroundM_pres s p
    exact ⟨h1.trans g1, h2.trans g2, h3.trans g3, h4.trans g4⟩

/-- The grid `move_left` actually operates on when called from each of the
four directional methods: the identity for left, reversed rows for right,
the transpose for up, the reversed transpose for down. -/
def dirGrid : Dir → List (List Cell) → List (List Cell)
  | Dir.left, g => g
  | Dir.right, g => g.map List.reverse
  | Dir.up, g => transposeG g
  | Dir.down, g => (transposeG g).map List.reverse

theorem moveLeft_won_eq (c : Nat × Bool) (s : GameState) :
    ((moveLeft c s).2).won = (s.won || (moveLeftRows s.size s.grid).won2048) := by
  unfold moveLeft
  dsimp only
  split
  · rw [checkGameOver_won, updateScore_won, addNewTile_won]
    dsimp only
    split
    · exact (clearSurroundingTiles_pres _).1
    · rfl
  · rfl

theorem clearSurroundingTiles_high (s : GameState) :
    (clearSurroundingTiles s).high_score = s.high_score :=
  (clearSurroundingTiles_pres s).2.1

theorem moveLeft_high_le (c : Nat × Bool) (s : GameState) :
    s.high_score ≤ ((moveLeft c s).2).high_score := by
  unfold moveLeft
  dsimp only
  split
  · rw [checkGameOver_high]
    refine Nat.le_trans ?_ (updateScore_high_le _)
    rw [addNewTile_high]
    dsimp only
    split
    · rw [clearSurroundingTiles_high]
    · exact Nat.le_refl _
  · exact Nat.le_refl _

theorem applyMove_won_eq (d : Dir) (c : Nat × Bool) (s : GameState) :
    ((applyMove d c s).2).won = (s.won || (moveLeftRows s.size (dirGrid d s.grid)).won2048) := by
  cases d
  · exact moveLeft_won_eq c s
  · exact moveLeft_won_eq c { s with grid := s.grid.map List.reverse }
  · exact moveLeft_won_eq c { s with grid := transposeG s.grid }
  · exact moveLeft_won_eq c { s with grid := (transposeG s.grid).map List.reverse }

theorem applyMove_high_le (d : Dir) (c : Nat × Bool) (s : GameState) :
    s.high_score ≤ ((applyMove d c s).2).high_score := by
  cases d
  · exact moveLeft_high_le c s
  · exact moveLeft_high_le c { s with grid := s.grid.map List.reverse }
  · exact moveLeft_high_le c { s with grid := transposeG s.grid }
  · exact moveLeft_high_le c { s with grid := (transposeG s.grid).map List.reverse }

/-! ### Row-level facts about compaction and merging -/

theorem mergeRow_length_le (l : List Cell) : (mergeRow l).1.length ≤ l.length := by
  induction l using mergeRow.induct with
  | case1 => exact Nat.le_refl _
  | case2 a => exact Nat.le_refl _
  | case3 a b rest h ih =>
    simp only [mergeRow, if_pos h, List.length_cons]
    simp only [List.length_cons] at ih
    omega
  | case4 a b rest h1 h2 ih =>
    simp only [mergeRow, if_neg h1, if_pos h2, List.length_cons]
    simp only [List.length_cons] at ih
    omega
  | case5 a b rest h1 h2 ih =>
    simp only [mergeRow, if_neg h1, if_neg h2, List.length_cons]
    simp only [List.length_cons] at ih
    omega

theorem mergeRow_eq_self_of_length (l : List Cell)
    (h : (mergeRow l).1.length = l.length) : mergeRow l = (l, false, false) := by
  induction l using mergeRow.induct with
  | case1 => rfl
  | case2 a => rfl
  | case3 a b rest hc ih =>
    exfalso
    have hle := mergeRow_length_le rest
    simp only [mergeRow, if_pos hc, List.length_cons] at h
    omega
  | case4 a b rest h1 h2 ih =>
    exfalso
    have hle := mergeRow_length_le rest
    simp only [mergeRow, if_neg h1, if_pos h2, List.length_cons] at h
    omega
  | case5 a b rest h1 h2 ih =>
    simp only [mergeRow, if_neg h1, if_neg h2, List.length_cons] at h ⊢
    simp only [List.length_cons] at ih
    have := ih (by omega)
    rw [this]

theorem mergeRow_special_mem (l : List Cell)
    (h : (mergeRow l).2.1 = true) : Cell.num 0 ∈ (mergeRow l).1 := by
  induction l using mergeRow.induct with
  | case1 => exact absurd h (by simp [mergeRow])
  | case2 a => exact absurd h (by simp [mergeRow])
  | case3 a b rest hc ih =>
    simp only [mergeRow, if_pos hc] at h ⊢
    exact List.mem_cons_of_mem _ (ih h)
  | case4 a b rest h1 h2 ih =>
    simp only [mergeRow, if_neg h1, if_pos h2]
    exact List.mem_cons_self _ _
  | case5 a b rest h1 h2 ih =>
    simp only [mergeRow, if_neg h1, if_neg h2] at h ⊢
    exact List.mem_cons_of_mem _ (ih h)

theorem compactRow_append_pad (m : List Cell) (k : Nat) :
    compactRow (m ++ List.replicate k (Cell.num 0)) = compactRow m := by
  unfold compactRow
  rw [List.filter_append, List.filter_replicate]
  simp

/-- A row whose `move_left` output equals the row itself experienced no
merge at all: the compacted row merges to itself with both event flags
`false`. -/
theorem moveRowLeft_noop (n : Nat) (row : List Cell)
    (h : (moveRowLeft n row).1 = row) : moveRowLeft n row = (row, false, false) := by
  have hcomp : compactRow ((mergeRow (compactRow row)).1
      ++ List.replicate (n - (mergeRow (compactRow row)).1.length) (Cell.num 0))
      = compactRow (mergeRow (compactRow row)).1 := compactRow_append_pad _ _
  have hrow : compactRow row = compactRow (mergeRow (compactRow row)).1 := by
    conv_lhs => rw [← h]
    exact (congrArg compactRow (show (moveRowLeft n row).1
      = (mergeRow (compactRow row)).1 ++ List.replicate
        (n - (mergeRow (compactRow row)).1.length) (Cell.num 0) from rfl)).trans hcomp
  have hlen1 : (compactRow row).length ≤ (mergeRow (compactRow row)).1.length :=
    Nat.le_trans (Nat.le_of_eq (congrArg List.length hrow))
      (List.length_filter_le _ _)
  have hlen2 : (mergeRow (compactRow row)).1.length ≤ (compactRow row).length :=
    mergeRow_length_le _
  have heq : mergeRow (compactRow row) = (compactRow row, false, false) :=
    mergeRow_eq_self_of_length _ (Nat.le_antisymm hlen2 hlen1)
  have hpad : (mergeRow (compactRow row)).1
      ++ List.replicate (n - (mergeRow (compactRow row)).1.length) (Cell.num 0) = row := h
  show ((mergeRow (compactRow row)).1
      ++ List.replicate (n - (mergeRow (compactRow row)).1.length) (Cell.num 0),
    (mergeRow (compactRow row)).2.1, (mergeRow (compactRow row)).2.2) = (row, false, false)
  rw [hpad, heq]

/-- A row that a fired `move_left` changed, or whose markers merged,
leaves an empty cell in the output row. -/
theorem moveRowLeft_fired_zero_mem (n : Nat) (row : List Cell) (hlen : row.length = n)
    (h : (moveRowLeft n row).1 ≠ row ∨ (moveRowLeft n row).2.1 = true) :
    Cell.num 0 ∈ (moveRowLeft n row).1 := by
  rcases h with h | h
  · by_contra hmem
    have hpad : n - (mergeRow (compactRow row)).1.length = 0 := by
      by_contra hk
      exact hmem (show Cell.num 0 ∈ (mergeRow (compactRow row)).1 ++ List.replicate _ _ from
        List.mem_append.2 (Or.inr (List.mem_replicate.2 ⟨hk, rfl⟩)))
    have h1 : (mergeRow (compactRow row)).1.length ≤ (compactRow row).length :=
      mergeRow_length_le _
    have h2 : (compactRow row).length ≤ row.length := List.length_filter_le _ _
    have hc : (compactRow row).length = row.length := by omega
    have hcr : compactRow row = row := by
      unfold compactRow at hc ⊢
      exact List.filter_eq_self.2 (List.filter_length_eq_length.1 hc)
    have hm : mergeRow (compactRow row) = (compactRow row, false, false) :=
      mergeRow_eq_self_of_length _ (by omega)
    apply h
    show (mergeRow (compactRow row)).1
      ++ List.replicate (n - (mergeRow (compactRow row)).1.length) (Cell.num 0) = row
    rw [hm, hcr]
    simp [hlen]
  · exact List.mem_append.2 (Or.inl (mergeRow_special_mem _ h))

theorem moveRowLeft_length (n : Nat) (row : List Cell) (hlen : row.length ≤ n) :
    (moveRowLeft n row).1.length = n := by
  have h1 : (mergeRow (compactRow row)).1.length ≤ (compactRow row).length :=
    mergeRow_length_le _
  have h2 : (compactRow row).length ≤ row.length := List.length_filter_le _ _
  show ((mergeRow (compactRow row)).1 ++ List.replicate _ _).length = n
  rw [List.length_append, List.length_replicate]
  omega

/-- If the row loop reports no change, it was the identity: merged grid
equal to the input and all three flags `false`. -/
theorem moveLeftRows_noop (n : Nat) (g : List (List Cell))
    (h : (moveLeftRows n g).moved = false) :
    moveLeftRows n g = ⟨g, false, false, false⟩ := by
  have hall : ∀ row ∈ g, (moveRowLeft n row).1 = row := by
    intro row hr
    have := List.any_eq_false.1 h row hr
    simpa using this
  have hgrid : (moveLeftRows n g).grid = g := by
    show g.map (fun row => (moveRowLeft n row).1) = g
    have := List.map_congr_left (l := g) (f := fun row => (moveRowLeft n row).1)
      (g := fun row => row) hall
    simpa using this
  have hspec : (moveLeftRows n g).special = false := by
    apply List.any_eq_false.2
    intro row hr
    rw [moveRowLeft_noop n row (hall row hr)]
    simp
  have hwon : (moveLeftRows n g).won2048 = false := by
    apply List.any_eq_false.2
    intro row hr
    rw [moveRowLeft_noop n row (hall row hr)]
    simp
  cases heq : moveLeftRows n g
  simp only [heq] at hgrid hspec hwon h
  simp [hgrid, hspec, hwon, h]

/-! ### Grid access and the `zip(*grid)` transpose on well-formed grids -/

theorem cellAt_eq_getElem {g : List (List Cell)} {i j : Nat}
    (hi : i < g.length) (hj : j < g[i].length) : cellAt g i j = g[i][j] := by
  unfold cellAt
  rw [List.getD_eq_getElem g [] hi, List.getD_eq_getElem _ _ hj]

theorem WFG_row_length {n : Nat} {g : List (List Cell)} (h : WFG n g)
    {i : Nat} (hi : i < g.length) : g[i].length = n :=
  h.2 g[i] (List.getElem_mem hi)

theorem grid_map_length {n : Nat} {g : List (List Cell)} (h : WFG n g) :
    g.map List.length = List.replicate n n := by
  refine List.eq_replicate_iff.2 ⟨?_, ?_⟩
  · rw [List.length_map]; exact h.1
  · intro b hb
    obtain ⟨row, hrow, hlen⟩ := List.mem_map.1 hb
    rw [← hlen]; exact h.2 row hrow

theorem foldl_min_self (x : Nat) (k : Nat) :
    (List.replicate k x).foldl min x = x := by
  induction k with
  | zero => rfl
  | succ m ih =>
    show ((x :: List.replicate m x).foldl min x) = x
    rw [List.foldl_cons, Nat.min_self]
    exact ih

theorem min?_replicate (x : Nat) {k : Nat} (hk : k ≠ 0) :
    (List.replicate k x).min? = some x := by
  cases k with
  | zero => exact absurd rfl hk
  | succ m =>
    show (x :: List.replicate m x).min? = some x
    rw [show (x :: List.replicate m x).min? = some ((List.replicate m x).foldl min x) from rfl,
      foldl_min_self]

theorem transposeG_eq {n : Nat} {g : List (List Cell)} (h : WFG n g) :
    transposeG g = (List.range n).map fun j => g.map fun row => row.getD j (Cell.num 0) := by
  unfold transposeG
  cases n with
  | zero =>
    have : g = [] := List.eq_nil_of_length_eq_zero h.1
    subst this
    rfl
  | succ m =>
    rw [grid_map_length h, min?_replicate _ (Nat.succ_ne_zero m)]
    rfl

theorem WFG_transposeG {n : Nat} {g : List (List Cell)} (h : WFG n g) :
    WFG n (transposeG g) := by
  rw [transposeG_eq h]
  constructor
  · rw [List.length_map, List.length_range]
  · intro row hrow
    obtain ⟨j, _, hj⟩ := List.mem_map.1 hrow
    rw [← hj, List.length_map]
    exact h.1

theorem WFG_map_reverse {n : Nat} {g : List (List Cell)} (h : WFG n g) :
    WFG n (g.map List.reverse) := by
  constructor
  · rw [List.length_map]; exact h.1
  · intro row hrow
    obtain ⟨r, hr, hrev⟩ := List.mem_map.1 hrow
    rw [← hrev, List.length_reverse]
    exact h.2 r hr

theorem cellAt_transposeG {n : Nat} {g : List (List Cell)} (h : WFG n g)
    {i j : Nat} (hi : i < n) (hj : j < n) :
    cellAt (transposeG g) i j = cellAt g j i := by
  have hgj : j < g.length := by rw [h.1]; exact hj
  have hlr : i < ((List.range n).map fun k => g.map fun row => row.getD k (Cell.num 0)).length := by
    rw [List.length_map, List.length_range]; exact hi
  have hTrow : ((List.range n).map fun k => g.map fun row => row.getD k (Cell.num 0)).getD i []
      = g.map fun row => row.getD i (Cell.num 0) := by
    rw [List.getD_eq_getElem _ [] hlr, List.getElem_map, List.getElem_range]
  have hmapj : j < (g.map fun row => row.getD i (Cell.num 0)).length := by
    rw [List.length_map]; exact hgj
  have hcell : (g.map fun row => row.getD i (Cell.num 0)).getD j (Cell.num 0)
      = (g.get ⟨j, hgj⟩).getD i (Cell.num 0) := by
    rw [List.getD_eq_getElem _ _ hmapj, List.getElem_map]
    rfl
  have hgD : g.getD j [] = g.get ⟨j, hgj⟩ := List.getD_eq_getElem g [] hgj
  show ((transposeG g).getD i []).getD j (Cell.num 0) = (g.getD j []).getD i (Cell.num 0)
  rw [transposeG_eq h, hTrow, hcell, hgD]

theorem transposeG_transposeG {n : Nat} {g : List (List Cell)} (h : WFG n g) :
    transposeG (transposeG g) = g := by
  have hT : WFG n (transposeG g) := WFG_transposeG h
  have hTT : WFG n (transposeG (transposeG g)) := WFG_transposeG hT
  refine List.ext_getElem (by rw [hTT.1, h.1]) ?_
  intro i h1 h2
  have hin : i < n := by rw [← hTT.1]; exact h1
  refine List.ext_getElem (by rw [WFG_row_length hTT h1, WFG_row_length h h2]) ?_
  intro j hj1 hj2
  have hjn : j < n := by rw [← WFG_row_length hTT h1]; exact hj1
  rw [← cellAt_eq_getElem h1 hj1, ← cellAt_eq_getElem h2 hj2,
    cellAt_transposeG hT hin hjn, cellAt_transposeG h hjn hin]

theorem map_reverse_map_reverse (g : List (List Cell)) :
    (g.map List.reverse).map List.reverse = g := by
  rw [List.map_map]
  simp [Function.comp_def]

/-! ### C8: a `moved=false` move changes nothing -/

theorem moveLeft_noop (c : Nat × Bool) (s : GameState)
    (h : (moveLeft c s).1 = false) : (moveLeft c s).2 = s := by
  have h1 : (moveLeft c s).1
      = ((moveLeftRows s.size s.grid).moved || (moveLeftRows s.size s.grid).special) := by
    unfold moveLeft
    dsimp only
    split <;> rfl
  rw [h1] at h
  have hnoop := moveLeftRows_noop s.size s.grid (Bool.or_eq_false_iff.1 h).1
  unfold moveLeft
  dsimp only
  rw [hnoop]
  simp

/-- C8.  When a move in any direction reports `moved = false`, the state
is returned unchanged in every field: same grid (no spawn happened), same
score, moves counter and flags. -/
theorem noop_move_frame (d : Dir) (c : Nat × Bool) (s : GameState)
    (hwf : WFG s.size s.grid) (h : (applyMove d c s).1 = false) :
    (applyMove d c s).2 = s := by
  cases d with
  | left => exact moveLeft_noop c s h
  | right =>
    have hn := moveLeft_noop c { s with grid := s.grid.map List.reverse } h
    show { (moveLeft c { s with grid := s.grid.map List.reverse }).2 with
      grid := (moveLeft c { s with grid := s.grid.map List.reverse }).2.grid.map List.reverse } = s
    rw [hn]
    show { s with grid := (s.grid.map List.reverse).map List.reverse } = s
    rw [map_reverse_map_reverse]
  | up =>
    have hn := moveLeft_noop c { s with grid := transposeG s.grid } h
    show { (moveLeft c { s with grid := transposeG s.grid }).2 with
      grid := transposeG (moveLeft c { s with grid := transposeG s.grid }).2.grid } = s
    rw [hn]
    show { s with grid := transposeG (transposeG s.grid) } = s
    rw [transposeG_transposeG hwf]
  | down =>
    have hn := moveLeft_noop c { s with grid := (transposeG s.grid).map List.reverse } h
    show { (moveLeft c { s with grid := (transposeG s.grid).map List.reverse }).2 with
      grid := transposeG ((moveLeft c
        { s with grid := (transposeG s.grid).map List.reverse }).2.grid.map List.reverse) } = s
    rw [hn]
    show { s with grid := transposeG (((transposeG s.grid).map List.reverse).map List.reverse) } = s
    rw [map_reverse_map_reverse, transposeG_transposeG hwf]

/-- Witness for C8 at a full 2×2 grid with no possible merge: the left
move reports `false` and the state is untouched. -/
theorem noop_move_frame_witness :
    WFG 2 [[Cell.num 2, Cell.num 4], [Cell.num 4, Cell.num 2]]
      ∧ (applyMove Dir.left (0, true)
          { size := 2, grid := [[Cell.num 2, Cell.num 4], [Cell.num 4, Cell.num 2]],
            score := 12, high_score := 12, moves := 5, game_over := false, won := false }).1 = false
      ∧ (applyMove Dir.left (0, true)
          { size := 2, grid := [[Cell.num 2, Cell.num 4], [Cell.num 4, Cell.num 2]],
            score := 12, high_score := 12, moves := 5, game_over := false, won := false }).2
        = { size := 2, grid := [[Cell.num 2, Cell.num 4], [Cell.num 4, Cell.num 2]],
            score := 12, high_score := 12, moves := 5, game_over := false, won := false } :=
  ⟨by decide, by decide,
    noop_move_frame Dir.left (0, true) _ (by decide) (by decide)⟩

/-! ### Empty-cell bookkeeping and C7: spawning after a fired move -/

theorem mem_emptyCellsOf {n : Nat} {g : List (List Cell)} {i j : Nat} :
    (i, j) ∈ emptyCellsOf n g ↔ i < n ∧ j < n ∧ cellAt g i j = Cell.num 0 := by
  unfold emptyCellsOf
  constructor
  · intro h
    obtain ⟨a, ha, hmem⟩ := List.mem_flatMap.1 h
    obtain ⟨b, hb, hpair⟩ := List.mem_map.1 hmem
    obtain ⟨hbr, hcell⟩ := List.mem_filter.1 hb
    obtain ⟨hi, hj⟩ := Prod.mk.injEq .. ▸ hpair
    subst hi; subst hj
    exact ⟨List.mem_range.1 ha, List.mem_range.1 hbr, by simpa using hcell⟩
  · intro ⟨hi, hj, hc⟩
    refine List.mem_flatMap.2 ⟨i, List.mem_range.2 hi, List.mem_map.2 ⟨j, ?_, rfl⟩⟩
    exact List.mem_filter.2 ⟨List.mem_range.2 hj, by simpa using hc⟩

theorem emptyCellsOf_ne_nil {n : Nat} {g : List (List Cell)} (hwf : WFG n g)
    (hz : ∃ row ∈ g, Cell.num 0 ∈ row) : emptyCellsOf n g ≠ [] := by
  obtain ⟨row, hrow, hmem⟩ := hz
  obtain ⟨i, hi, hieq⟩ := List.mem_iff_getElem.1 hrow
  obtain ⟨j, hj, hjeq⟩ := List.mem_iff_getElem.1 hmem
  have hjg : j < g[i].length := by rw [hieq]; exact hj
  have hin : i < n := by rw [← hwf.1]; exact hi
  have hjn : j < n := by rw [← WFG_row_length hwf hi]; exact hjg
  have hcell : cellAt g i j = Cell.num 0 := by
    rw [cellAt_eq_getElem hi hjg]
    have : g[i][j] = row[j] := by
      congr 1
    rw [this, hjeq]
  exact List.ne_nil_of_mem (mem_emptyCellsOf.2 ⟨hin, hjn, hcell⟩)

theorem WFG_moveLeftRows {n : Nat} {g : List (List Cell)} (h : WFG n g) :
    WFG n ((moveLeftRows n g).grid) := by
  constructor
  · show (g.map fun row => (moveRowLeft n row).1).length = n
    rw [List.length_map]; exact h.1
  · intro row hrow
    obtain ⟨r, hr, heq⟩ := List.mem_map.1 hrow
    rw [← heq]
    exact moveRowLeft_length n r (Nat.le_of_eq (h.2 r hr))

theorem WFG_dirGrid {n : Nat} {g : List (List Cell)} (h : WFG n g) (d : Dir) :
    WFG n (dirGrid d g) := by
  cases d with
  | left => exact h
  | right => exact WFG_map_reverse h
  | up => exact WFG_transposeG h
  | down => exact WFG_map_reverse (WFG_transposeG h)

/-- C7.  (1) Whenever the row loop of a move in any direction fires
(`moved or special_merged`), the resulting grid — before the spawn —
still has an empty cell, so the spawn performed inside the move cannot
hit the no-empty-cell branch; (2) `add_new_tile` reports `false` exactly
when the grid has no empty cell. -/
theorem spawn_after_fired_move_succeeds :
    (∀ (n : Nat) (g : List (List Cell)) (d : Dir), WFG n g →
      ((moveLeftRows n (dirGrid d g)).moved || (moveLeftRows n (dirGrid d g)).special) = true →
      emptyCellsOf n (moveLeftRows n (dirGrid d g)).grid ≠ [])
      ∧ ∀ (c : Nat × Bool) (s : GameState),
        ((addNewTile c s).1 = false ↔ emptyCellsOf s.size s.grid = []) := by
  constructor
  · intro n g d hwf hfired
    have hwfd : WFG n (dirGrid d g) := WFG_dirGrid hwf d
    refine emptyCellsOf_ne_nil (WFG_moveLeftRows hwfd) ?_
    rcases (Bool.or_eq_true _ _) ▸ hfired with hm | hs
    · obtain ⟨row, hrow, hp⟩ := List.any_eq_true.1 hm
      refine ⟨(moveRowLeft n row).1, List.mem_map.2 ⟨row, hrow, rfl⟩, ?_⟩
      exact moveRowLeft_fired_zero_mem n row (hwfd.2 row hrow) (Or.inl (by simpa using hp))
    · obtain ⟨row, hrow, hp⟩ := List.any_eq_true.1 hs
      refine ⟨(moveRowLeft n row).1, List.mem_map.2 ⟨row, hrow, rfl⟩, ?_⟩
      exact moveRowLeft_fired_zero_mem n row (hwfd.2 row hrow) (Or.inr hp)
  · intro c s
    unfold addNewTile
    dsimp only
    by_cases hE : (emptyCellsOf s.size s.grid).isEmpty = true
    · rw [if_pos hE]
      have : emptyCellsOf s.size s.grid = [] := List.isEmpty_iff.1 hE
      constructor
      · intro _; exact this
      · intro _
        split <;> rfl
    · rw [if_neg hE]
      constructor
      · intro h; exact absurd h (by simp)
      · intro h; exact absurd (List.isEmpty_iff.2 h) hE

/-- Witness for C7 at a 2×2 grid whose top row merges (the fired left
move leaves an empty cell, and the theorem applies). -/
theorem spawn_after_fired_move_succeeds_witness :
    emptyCellsOf 2 (moveLeftRows 2
      (dirGrid Dir.left [[Cell.num 2, Cell.num 2], [Cell.num 4, Cell.num 8]])).grid ≠ [] :=
  spawn_after_fired_move_succeeds.1 2 [[Cell.num 2, Cell.num 2], [Cell.num 4, Cell.num 8]]
    Dir.left (by decide) (by decide)

/-! ### C1: characterizing `is_game_over` -/

theorem range_all_iff (n : Nat) (q : Nat → Bool) :
    ((List.range n).all q) = true ↔ ∀ i, i < n → q i = true := by
  simp [List.all_eq_true, List.mem_range]

theorem cellAt_index_of_mem {n : Nat} {g : List (List Cell)} (hwf : WFG n g)
    {row : List Cell} {v : Cell} (hrow : row ∈ g) (hv : v ∈ row) :
    ∃ i, i < n ∧ ∃ j, j < n ∧ cellAt g i j = v := by
  obtain ⟨i, hi, hieq⟩ := List.mem_iff_getElem.1 hrow
  obtain ⟨j, hj, hjeq⟩ := List.mem_iff_getElem.1 hv
  have hjg : j < g[i].length := by rw [hieq]; exact hj
  refine ⟨i, by rw [← hwf.1]; exact hi, j, by rw [← WFG_row_length hwf hi]; exact hjg, ?_⟩
  rw [cellAt_eq_getElem hi hjg]
  have : g[i][j] = row[j] := by congr 1
  rw [this, hjeq]

theorem mem_of_cellAt {n : Nat} {g : List (List Cell)} (hwf : WFG n g)
    {i j : Nat} (hi : i < n) (hj : j < n) :
    ∃ row ∈ g, cellAt g i j ∈ row := by
  have hig : i < g.length := by rw [hwf.1]; exact hi
  have hjg : j < g[i].length := by rw [WFG_row_length hwf hig]; exact hj
  exact ⟨g[i], List.getElem_mem hig, by rw [cellAt_eq_getElem hig hjg]; exact List.getElem_mem hjg⟩

/-- C1, amended.  On every well-formed grid, `is_game_over` returns true
iff the grid has no empty cell AND contains no special marker at all AND
no two adjacent cells share the same value.  (The claim's condition "no
marker adjacent to another marker" is replaced by "no marker present":
the source returns `False` for any grid containing `'M'`.) -/
theorem isGameOver_characterization (n : Nat) (g : List (List Cell)) (hwf : WFG n g) :
    isGameOverG n g = (specNoEmpty n g && specNoMarker n g && specNoAdjEqual n g) := by
  unfold isGameOverG
  by_cases hany : (g.any fun row =>
      row.any (fun v => decide (v = Cell.num 0)) || row.any fun v => decide (v = Cell.M)) = true
  · rw [if_pos hany]
    obtain ⟨row, hrow, hp⟩ := List.any_eq_true.1 hany
    rcases (Bool.or_eq_true _ _) ▸ hp with hz | hM
    · obtain ⟨v, hv, hveq⟩ := List.any_eq_true.1 hz
      have hv0 : v = Cell.num 0 := by simpa using hveq
      obtain ⟨i, hi, j, hj, hc⟩ := cellAt_index_of_mem hwf hrow (hv0 ▸ hv)
      have hA : specNoEmpty n g = false := by
        apply Bool.eq_false_iff.2
        intro hA
        have := (range_all_iff _ _).1 ((range_all_iff _ _).1 hA i hi) j hj
        simp [hc] at this
      rw [hA]
      rfl
    · obtain ⟨v, hv, hveq⟩ := List.any_eq_true.1 hM
      have hvM : v = Cell.M := by simpa using hveq
      obtain ⟨i, hi, j, hj, hc⟩ := cellAt_index_of_mem hwf hrow (hvM ▸ hv)
      have hB : specNoMarker n g = false := by
        apply Bool.eq_false_iff.2
        intro hB
        have := (range_all_iff _ _).1 ((range_all_iff _ _).1 hB i hi) j hj
        simp [hc] at this
      rw [hB, Bool.and_false, Bool.false_and]
  · rw [if_neg hany]
    have hnone : ∀ row ∈ g, ∀ v ∈ row, v ≠ Cell.num 0 ∧ v ≠ Cell.M := by
      intro row hrow v hv
      have h1 := List.any_eq_false.1 (Bool.eq_false_iff.2 hany) row hrow
      rw [Bool.or_eq_true] at h1
      push_neg at h1
      constructor
      · intro hveq
        exact h1.1 (List.any_eq_true.2 ⟨v, hv, by simp [hveq]⟩)
      · intro hveq
        exact h1.2 (List.any_eq_true.2 ⟨v, hv, by simp [hveq]⟩)
    have hA : specNoEmpty n g = true := by
      refine (range_all_iff _ _).2 fun i hi => (range_all_iff _ _).2 fun j hj => ?_
      obtain ⟨row, hrow, hmem⟩ := mem_of_cellAt hwf hi hj
      simpa using (hnone row hrow _ hmem).1
    have hB : specNoMarker n g = true := by
      refine (range_all_iff _ _).2 fun i hi => (range_all_iff _ _).2 fun j hj => ?_
      obtain ⟨row, hrow, hmem⟩ := mem_of_cellAt hwf hi hj
      simpa using (hnone row hrow _ hmem).2
    rw [hA, hB, Bool.true_and, Bool.true_and]
    have hpt : ∀ i, i < n → ((List.range n).all fun j =>
        let current := cellAt g i j
        (!(decide (j + 1 < n) && decide (cellAt g i (j + 1) = current)))
        && (!(decide (i + 1 < n) && decide (cellAt g (i + 1) j = current)))
        && (!(decide (current = Cell.M) && hasAdjacentM n g i j)))
        = ((List.range n).all fun j =>
        (!(decide (j + 1 < n) && decide (cellAt g i (j + 1) = cellAt g i j)))
        && (!(decide (i + 1 < n) && decide (cellAt g (i + 1) j = cellAt g i j)))) := by
      intro i hi
      apply Bool.eq_iff_iff.2
      rw [range_all_iff, range_all_iff]
      refine forall_congr' fun j => imp_congr_right fun hj => ?_
      obtain ⟨row, hrow, hmem⟩ := mem_of_cellAt hwf hi hj
      have hnM : cellAt g i j ≠ Cell.M := (hnone row hrow _ hmem).2
      simp [hnM]
    unfold specNoAdjEqual
    apply Bool.eq_iff_iff.2
    rw [range_all_iff, range_all_iff]
    exact forall_congr' fun i => imp_congr_right fun hi => by rw [hpt i hi]

/-- Witness for the C1 characterization at a concrete full grid. -/
theorem isGameOver_characterization_witness :
    isGameOverG 2 [[Cell.num 2, Cell.num 4], [Cell.num 4, Cell.num 2]]
      = (specNoEmpty 2 [[Cell.num 2, Cell.num 4], [Cell.num 4, Cell.num 2]]
        && specNoMarker 2 [[Cell.num 2, Cell.num 4], [Cell.num 4, Cell.num 2]]
        && specNoAdjEqual 2 [[Cell.num 2, Cell.num 4], [Cell.num 4, Cell.num 2]]) :=
  isGameOver_characterization 2 [[Cell.num 2, Cell.num 4], [Cell.num 4, Cell.num 2]] (by decide)

/-! ### Score sums under row reversal and transposition -/

theorem list_sum_map_getD {α : Type} (l : List α) (f : α → Nat) (e : α) :
    (l.map f).sum = ∑ i ∈ Finset.range l.length, f (l.getD i e) := by
  induction l with
  | nil => simp
  | cons a rest ih =>
    rw [List.map_cons, List.sum_cons, List.length_cons, Finset.sum_range_succ']
    simp only [List.getD_cons_succ, List.getD_cons_zero]
    rw [← ih]
    omega

theorem calculateTotalScore_eq_sum {n : Nat} {g : List (List Cell)} (hwf : WFG n g) :
    calculateTotalScore g
      = ∑ i ∈ Finset.range n, ∑ j ∈ Finset.range n, cellScoreVal (cellAt g i j) := by
  unfold calculateTotalScore
  rw [list_sum_map_getD g rowScore [], hwf.1]
  refine Finset.sum_congr rfl fun i hi => ?_
  have hig : i < g.length := by rw [hwf.1]; exact Finset.mem_range.1 hi
  have hrowlen : (g.getD i []).length = n := by
    rw [List.getD_eq_getElem g [] hig]; exact WFG_row_length hwf hig
  unfold rowScore
  rw [list_sum_map_getD _ cellScoreVal (Cell.num 0), hrowlen]
  rfl

theorem calculateTotalScore_transposeG {n : Nat} {g : List (List Cell)} (hwf : WFG n g) :
    calculateTotalScore (transposeG g) = calculateTotalScore g := by
  rw [calculateTotalScore_eq_sum (WFG_transposeG hwf), calculateTotalScore_eq_sum hwf,
    Finset.sum_comm]
  refine Finset.sum_congr rfl fun x hx => Finset.sum_congr rfl fun y hy => ?_
  rw [cellAt_transposeG hwf (Finset.mem_range.1 hy) (Finset.mem_range.1 hx)]

theorem calculateTotalScore_map_reverse (g : List (List Cell)) :
    calculateTotalScore (g.map List.reverse) = calculateTotalScore g := by
  unfold calculateTotalScore
  rw [List.map_map]
  refine congrArg List.sum (List.map_congr_left fun row hr => ?_)
  show rowScore row.reverse = rowScore row
  unfold rowScore
  rw [List.map_reverse, List.sum_reverse]

/-! ### Well-formedness is preserved by every state operation -/

theorem WFG_setCell {n : Nat} {g : List (List Cell)} (h : WFG n g)
    {i : Nat} (hi : i < n) (j : Nat) (v : Cell) : WFG n (setCell g i j v) := by
  unfold setCell
  constructor
  · rw [List.length_set]; exact h.1
  · intro row hrow
    rcases List.mem_or_eq_of_mem_set hrow with hmem | heq
    · exact h.2 row hmem
    · subst heq
      rw [List.length_set]
      have hig : i < g.length := by rw [h.1]; exact hi
      rw [List.getD_eq_getElem g [] hig]
      exact WFG_row_length h hig

theorem getD_mod_mem {α : Type} (l : List α) (k : Nat) (d : α) (h : 0 < l.length) :
    l.getD (k % l.length) d ∈ l := by
  have hmod : k % l.length < l.length := Nat.mod_lt _ h
  rw [List.getD_eq_getElem _ _ hmod]
  exact List.getElem_mem hmod

theorem addNewTile_WFG {s : GameState} (h : WFG s.size s.grid) (c : Nat × Bool) :
    WFG s.size ((addNewTile c s).2).grid := by
  unfold addNewTile
  dsimp only
  split
  · split <;> exact h
  · rename_i hne
    have hlen : 0 < (emptyCellsOf s.size s.grid).length := by
      cases hl : emptyCellsOf s.size s.grid with
      | nil => rw [hl] at hne; exact absurd rfl hne
      | cons a t => simp
    have hmem : (emptyCellsOf s.size s.grid).getD
        (c.1 % (emptyCellsOf s.size s.grid).length) (0, 0) ∈ emptyCellsOf s.size s.grid :=
      getD_mod_mem _ _ _ hlen
    obtain ⟨hi, hj, hc⟩ := mem_emptyCellsOf.1 hmem
    exact WFG_setCell h hi _ _

theorem WFG_replicate (n : Nat) : WFG n (List.replicate n (List.replicate n (Cell.num 0))) :=
  ⟨List.length_replicate n _, fun row hr => by
    rw [(List.mem_replicate.1 hr).2]; exact List.length_replicate n _⟩

/-! ### C3: score always equals the grid sum -/

/-- The invariant of C3: a structurally valid grid whose recorded score is
the sum of its numeric tiles. -/
def ScoreInv (s : GameState) : Prop :=
  WFG s.size s.grid ∧ s.score = calculateTotalScore s.grid

theorem scoreInv_tail (s2 : GameState) (c : Nat × Bool) (h : WFG s2.size s2.grid) :
    ScoreInv (checkGameOver (updateScore (addNewTile c s2).2)) := by
  constructor
  · rw [checkGameOver_size, updateScore_size, checkGameOver_grid, updateScore_grid,
      addNewTile_size]
    exact addNewTile_WFG h c
  · rw [checkGameOver_score, checkGameOver_grid, updateScore_score, updateScore_grid]

theorem moveLeft_fired_cond (c : Nat × Bool) (s : GameState) :
    (moveLeft c s).1
      = ((moveLeftRows s.size s.grid).moved || (moveLeftRows s.size s.grid).special) := by
  unfold moveLeft
  dsimp only
  split <;> rfl

theorem moveLeft_scoreInv (c : Nat × Bool) {s : GameState} (h : ScoreInv s) :
    ScoreInv ((moveLeft c s).2) := by
  by_cases hf : (moveLeft c s).1 = false
  · rw [moveLeft_noop c s hf]; exact h
  · have hcond : ((moveLeftRows s.size s.grid).moved
        || (moveLeftRows s.size s.grid).special) = true := by
      rw [← moveLeft_fired_cond c s]; exact Bool.ne_false_iff.1 hf
    unfold moveLeft
    dsimp only
    rw [if_pos hcond]
    apply scoreInv_tail
    by_cases hsp : (moveLeftRows s.size s.grid).special = true
    · rw [if_pos hsp]
      have hsz : (clearSurroundingTiles
          { s with won := s.won || (moveLeftRows s.size s.grid).won2048 }).size = s.size :=
        (clearSurroundingTiles_pres _).2.2.1
      show WFG (clearSurroundingTiles
        { s with won := s.won || (moveLeftRows s.size s.grid).won2048 }).size
        (moveLeftRows s.size s.grid).grid
      rw [hsz]
      exact WFG_moveLeftRows h.1
    · rw [if_neg hsp]
      exact WFG_moveLeftRows h.1

theorem applyMove_scoreInv (d : Dir) (c : Nat × Bool) {s : GameState} (h : ScoreInv s) :
    ScoreInv ((applyMove d c s).2) := by
  cases d with
  | left => exact moveLeft_scoreInv c h
  | right =>
    have h1 : ScoreInv { s with grid := s.grid.map List.reverse } :=
      ⟨WFG_map_reverse h.1, by
        show s.score = calculateTotalScore (s.grid.map List.reverse)
        rw [calculateTotalScore_map_reverse]; exact h.2⟩
    have h2 := moveLeft_scoreInv c h1
    refine ⟨WFG_map_reverse h2.1, ?_⟩
    show (moveLeft c { s with grid := s.grid.map List.reverse }).2.score
      = calculateTotalScore
        ((moveLeft c { s with grid := s.grid.map List.reverse }).2.grid.map List.reverse)
    rw [calculateTotalScore_map_reverse]
    exact h2.2
  | up =>
    have h1 : ScoreInv { s with grid := transposeG s.grid } :=
      ⟨WFG_transposeG h.1, by
        show s.score = calculateTotalScore (transposeG s.grid)
        rw [calculateTotalScore_transposeG h.1]; exact h.2⟩
    have h2 := moveLeft_scoreInv c h1
    refine ⟨WFG_transposeG h2.1, ?_⟩
    show (moveLeft c { s with grid := transposeG s.grid }).2.score
      = calculateTotalScore (transposeG (moveLeft c { s with grid := transposeG s.grid }).2.grid)
    rw [calculateTotalScore_transposeG h2.1]
    exact h2.2
  | down =>
    have h1 : ScoreInv { s with grid := (transposeG s.grid).map List.reverse } :=
      ⟨WFG_map_reverse (WFG_transposeG h.1), by
        show s.score = calculateTotalScore ((transposeG s.grid).map List.reverse)
        rw [calculateTotalScore_map_reverse, calculateTotalScore_transposeG h.1]; exact h.2⟩
    have h2 := moveLeft_scoreInv c h1
    refine ⟨WFG_transposeG (WFG_map_reverse h2.1), ?_⟩
    show (moveLeft c { s with grid := (transposeG s.grid).map List.reverse }).2.score
      = calculateTotalScore (transposeG
        ((moveLeft c { s with grid := (transposeG s.grid).map List.reverse }).2.grid.map
          List.reverse))
    rw [calculateTotalScore_transposeG (WFG_map_reverse h2.1), calculateTotalScore_map_reverse]
    exact h2.2

theorem updateScore_scoreInv {s2 : GameState} (h : WFG s2.size s2.grid) :
    ScoreInv (updateScore s2) := by
  refine ⟨?_, rfl⟩
  rw [updateScore_size, updateScore_grid]
  exact h

theorem addNewTile_WFG2 {s : GameState} (h : WFG s.size s.grid) (c : Nat × Bool) :
    WFG ((addNewTile c s).2).size ((addNewTile c s).2).grid := by
  rw [addNewTile_size]
  exact addNewTile_WFG h c

theorem initGame_scoreInv (n : Nat) (c1 c2 : Nat × Bool) : ScoreInv (initGame n c1 c2) := by
  unfold initGame
  dsimp only
  apply updateScore_scoreInv
  refine addNewTile_WFG2 (addNewTile_WFG2 ?_ c1) c2
  exact WFG_replicate n

theorem resetGame_scoreInv (c1 c2 : Nat × Bool) (s : GameState) :
    ScoreInv (resetGame c1 c2 s) := by
  unfold resetGame
  dsimp only
  apply updateScore_scoreInv
  refine addNewTile_WFG2 (addNewTile_WFG2 ?_ c1) c2
  exact WFG_replicate s.size

/-- The operations C3 ranges over: construction happens once at the start,
then any sequence of directional moves and resets. -/
inductive MoveResetOp where
  | move (d : Dir) (c : Nat × Bool)
  | reset (c1 c2 : Nat × Bool)

def applyMoveReset (o : MoveResetOp) (s : GameState) : GameState :=
  match o with
  | MoveResetOp.move d c => (applyMove d c s).2
  | MoveResetOp.reset c1 c2 => resetGame c1 c2 s

theorem applyMoveReset_scoreInv (o : MoveResetOp) {s : GameState} (h : ScoreInv s) :
    ScoreInv (applyMoveReset o s) := by
  cases o with
  | move d c => exact applyMove_scoreInv d c h
  | reset c1 c2 => exact resetGame_scoreInv c1 c2 s

/-- C3.  After construction and after any sequence of moves (in any of the
four directions) and resets, the recorded score equals the sum of all
positive numeric cell values on the grid (markers contribute nothing). -/
theorem score_eq_grid_sum (n : Nat) (c1 c2 : Nat × Bool) (ops : List MoveResetOp) :
    (ops.foldl (fun t o => applyMoveReset o t) (initGame n c1 c2)).score
      = calculateTotalScore
        ((ops.foldl (fun t o => applyMoveReset o t) (initGame n c1 c2)).grid) := by
  suffices h : ∀ (s : GameState), ScoreInv s →
      ScoreInv (ops.foldl (fun t o => applyMoveReset o t) s) from
    (h _ (initGame_scoreInv n c1 c2)).2
  intro s hs
  induction ops generalizing s with
  | nil => exact hs
  | cons o rest ih =>
    exact ih _ (applyMoveReset_scoreInv o hs)

/-! ### C6: construction spawns exactly two tiles (and never validates size) -/

/-- Spec wording: the number of non-empty cells of a grid. -/
def countNonEmpty (g : List (List Cell)) : Nat :=
  (g.map fun row => (compactRow row).length).sum

theorem sum_set_nat (l : List Nat) (i : Nat) (x : Nat) (h : i < l.length) :
    (l.set i x).sum + l[i] = l.sum + x := by
  induction l generalizing i with
  | nil => simp at h
  | cons a t ih =>
    cases i with
    | zero =>
      rw [List.set_cons_zero]
      simp only [List.sum_cons, List.getElem_cons_zero]
      omega
    | succ m =>
      have hm : m < t.length := by simpa using h
      rw [List.set_cons_succ]
      simp only [List.sum_cons, List.getElem_cons_succ]
      have := ih m hm
      omega

theorem filter_set_length {α : Type} (p : α → Bool) (l : List α) (j : Nat) (hj : j < l.length)
    (h0 : p l[j] = false) (v : α) (hv : p v = true) :
    (List.filter p (l.set j v)).length = (List.filter p l).length + 1 := by
  induction l generalizing j with
  | nil => simp at hj
  | cons a t ih =>
    cases j with
    | zero =>
      have ha : p a = false := by simpa using h0
      rw [List.set_cons_zero, List.filter_cons, List.filter_cons, if_pos hv, if_neg (by simp [ha])]
      rfl
    | succ m =>
      have hm : m < t.length := by simpa using hj
      have h0t : p t[m] = false := by simpa using h0
      rw [List.set_cons_succ, List.filter_cons, List.filter_cons]
      by_cases ha : p a = true
      · rw [if_pos ha, if_pos ha, List.length_cons, List.length_cons, ih m hm h0t]
      · rw [if_neg ha, if_neg ha, ih m hm h0t]

theorem countNonEmpty_setCell {n : Nat} {g : List (List Cell)} (h : WFG n g)
    {i j : Nat} (hi : i < n) (hj : j < n) (hc : cellAt g i j = Cell.num 0)
    {v : Cell} (hv : v ≠ Cell.num 0) :
    countNonEmpty (setCell g i j v) = countNonEmpty g + 1 := by
  have hig : i < g.length := by rw [h.1]; exact hi
  have hjr : j < g[i].length := by rw [WFG_row_length h hig]; exact hj
  have hrow : g.getD i [] = g[i] := List.getD_eq_getElem g [] hig
  have hrl : (compactRow ((g.getD i []).set j v)).length = (compactRow g[i]).length + 1 := by
    rw [hrow]
    unfold compactRow
    refine filter_set_length _ _ j hjr ?_ v ?_
    · have hz : g[i][j] = Cell.num 0 := by rw [← cellAt_eq_getElem hig hjr]; exact hc
      simp [hz]
    · simp [hv]
  unfold countNonEmpty setCell
  simp only [List.map_set]
  have hlen : i < (g.map fun row => (compactRow row).length).length := by
    rw [List.length_map]; exact hig
  have hsum := sum_set_nat (g.map fun row => (compactRow row).length) i
    ((compactRow ((g.getD i []).set j v)).length) hlen
  have hgel : (g.map fun row => (compactRow row).length)[i] = (compactRow g[i]).length :=
    List.getElem_map _
  omega

theorem cellAt_zeros {n i j : Nat} (hi : i < n) (hj : j < n) :
    cellAt (List.replicate n (List.replicate n (Cell.num 0))) i j = Cell.num 0 := by
  unfold cellAt
  rw [List.getD_eq_getElem _ [] (by rw [List.length_replicate]; exact hi),
    List.getElem_replicate,
    List.getD_eq_getElem _ _ (by rw [List.length_replicate]; exact hj),
    List.getElem_replicate]

theorem countNonEmpty_zeros (n : Nat) :
    countNonEmpty (List.replicate n (List.replicate n (Cell.num 0))) = 0 := by
  unfold countNonEmpty
  rw [List.map_replicate]
  have hz : (compactRow (List.replicate n (Cell.num 0))).length = 0 := by
    unfold compactRow
    rw [List.filter_replicate]
    simp
  rw [hz, List.sum_replicate]
  simp

theorem getD_set_ne {α : Type} (l : List α) {i i2 : Nat} (a d : α) (h : i2 ≠ i) :
    (l.set i a).getD i2 d = l.getD i2 d := by
  induction l generalizing i i2 with
  | nil => rfl
  | cons x t ih =>
    cases i with
    | zero =>
      cases i2 with
      | zero => exact absurd rfl h
      | succ k => rw [List.set_cons_zero, List.getD_cons_succ, List.getD_cons_succ]
    | succ m =>
      cases i2 with
      | zero => rw [List.set_cons_succ, List.getD_cons_zero, List.getD_cons_zero]
      | succ k =>
        rw [List.set_cons_succ, List.getD_cons_succ, List.getD_cons_succ]
        exact ih fun hk => h (by rw [hk])

theorem cellAt_setCell_col_ne {g : List (List Cell)} {i j j2 : Nat} (hig : i < g.length)
    (v : Cell) (hne : j2 ≠ j) : cellAt (setCell g i j v) i j2 = cellAt g i j2 := by
  unfold setCell cellAt
  have hlen : i < (g.set i ((g.getD i []).set j v)).length := by
    rw [List.length_set]; exact hig
  rw [List.getD_eq_getElem _ [] hlen, List.getElem_set_self hlen,
    getD_set_ne _ _ _ hne]

theorem addNewTile_spawn {s : GameState} (hne : emptyCellsOf s.size s.grid ≠ [])
    (c : Nat × Bool) :
    ∃ i j, (i, j) ∈ emptyCellsOf s.size s.grid
      ∧ ((addNewTile c s).2).grid = setCell s.grid i j (Cell.num (if c.2 then 2 else 4))
      ∧ (addNewTile c s).1 = true := by
  unfold addNewTile
  dsimp only
  rw [if_neg (by simpa [List.isEmpty_iff] using hne)]
  exact ⟨_, _, getD_mod_mem _ _ _ (List.length_pos.2 hne), rfl, rfl⟩

theorem addNewTile_count {s : GameState} (h : WFG s.size s.grid)
    (hne : emptyCellsOf s.size s.grid ≠ []) (c : Nat × Bool) :
    countNonEmpty ((addNewTile c s).2).grid = countNonEmpty s.grid + 1 := by
  obtain ⟨i, j, hmem, hgrid, -⟩ := addNewTile_spawn hne c
  obtain ⟨hi, hj, hc⟩ := mem_emptyCellsOf.1 hmem
  rw [hgrid]
  exact countNonEmpty_setCell h hi hj hc (by cases hb : c.2 <;> simp [hb])

theorem double_spawn_on_zero {s : GameState} (c1 c2 : Nat × Bool) (hn : 2 ≤ s.size)
    (hz : s.grid = List.replicate s.size (List.replicate s.size (Cell.num 0))) :
    countNonEmpty ((addNewTile c2 (addNewTile c1 s).2).2).grid = 2 := by
  have hwf : WFG s.size s.grid := by rw [hz]; exact WFG_replicate s.size
  have h00 : cellAt s.grid 0 0 = Cell.num 0 := by
    rw [hz]; exact cellAt_zeros (by omega) (by omega)
  have hne1 : emptyCellsOf s.size s.grid ≠ [] :=
    List.ne_nil_of_mem (mem_emptyCellsOf.2 ⟨by omega, by omega, h00⟩)
  obtain ⟨i1, j1, hmem1, hgrid1, -⟩ := addNewTile_spawn hne1 c1
  obtain ⟨hi1, hj1, hc1⟩ := mem_emptyCellsOf.1 hmem1
  have hsz1 : ((addNewTile c1 s).2).size = s.size := addNewTile_size c1 s
  have hj2n : (if j1 = 0 then 1 else 0) < s.size := by
    by_cases h0 : j1 = 0 <;> simp [h0] <;> omega
  have hj2ne : (if j1 = 0 then 1 else 0) ≠ j1 := by
    by_cases h0 : j1 = 0 <;> simp [h0]
    omega
  have hcell2 : cellAt ((addNewTile c1 s).2).grid i1 (if j1 = 0 then 1 else 0) = Cell.num 0 := by
    rw [hgrid1, cellAt_setCell_col_ne (by rw [hwf.1]; exact hi1) _ hj2ne, hz]
    exact cellAt_zeros hi1 hj2n
  have hne2 : emptyCellsOf ((addNewTile c1 s).2).size ((addNewTile c1 s).2).grid ≠ [] := by
    rw [hsz1]
    exact List.ne_nil_of_mem (mem_emptyCellsOf.2 ⟨hi1, hj2n, hcell2⟩)
  have hwf1 : WFG ((addNewTile c1 s).2).size ((addNewTile c1 s).2).grid := by
    rw [hsz1]; exact addNewTile_WFG hwf c1
  have hcnt1 : countNonEmpty ((addNewTile c1 s).2).grid = countNonEmpty s.grid + 1 :=
    addNewTile_count hwf hne1 c1
  have hcnt2 := addNewTile_count hwf1 hne2 c2
  have hcnt0 : countNonEmpty s.grid = 0 := by rw [hz]; exact countNonEmpty_zeros s.size
  omega

/-- C6, amended.  `__init__` performs no validation and never fails; for
every `size ≥ 2` it produces a state of that size with a well-formed
`size × size` grid containing exactly two non-empty (spawned) cells, and
with the score computed from the grid.  (For `size < 2` construction
still succeeds — see the counterexample theorem.) -/
theorem init_valid_sizes (n : Nat) (hn : 2 ≤ n) (c1 c2 : Nat × Bool) :
    (initGame n c1 c2).size = n
      ∧ WFG n (initGame n c1 c2).grid
      ∧ countNonEmpty (initGame n c1 c2).grid = 2
      ∧ (initGame n c1 c2).score = calculateTotalScore (initGame n c1 c2).grid := by
  have hInv := initGame_scoreInv n c1 c2
  have hsz : (initGame n c1 c2).size = n := by
    unfold initGame
    dsimp only
    rw [updateScore_size, addNewTile_size, addNewTile_size]
  refine ⟨hsz, by have h1 := hInv.1; rw [hsz] at h1; exact h1, ?_, hInv.2⟩
  unfold initGame
  dsimp only
  rw [updateScore_grid]
  exact double_spawn_on_zero c1 c2 hn rfl

/-- Witness for the amended C6 at size 2. -/
theorem init_valid_sizes_witness :
    (initGame 2 (0, true) (1, false)).size = 2
      ∧ WFG 2 (initGame 2 (0, true) (1, false)).grid
      ∧ countNonEmpty (initGame 2 (0, true) (1, false)).grid = 2
      ∧ (initGame 2 (0, true) (1, false)).score
        = calculateTotalScore (initGame 2 (0, true) (1, false)).grid :=
  init_valid_sizes 2 (by decide) (0, true) (1, false)

/-! ### C9: the directional moves are the conjugated canonical left move

The code defines right/up/down by conjugating `move_left` with row
reversal and/or transposition.  Following the spec's wording we give
*direct* definitions — a right move that compacts to the right and merges
scanning from the right (rightmost pair first, a merged tile never
re-merges), and up/down moves that operate column-wise — and prove that
the conjugations produce exactly the same grid, `moved` flag and event
flags. -/

/-- One step of the direct right-merge, processed by `foldr` (i.e. right
to left): the incoming cell `a` merges with the head of the accumulated
output unless that head was itself just produced by a merge. -/
def mergeStep (a : Cell) (acc : List Cell × Bool × Bool × Bool) :
    List Cell × Bool × Bool × Bool :=
  match acc with
  | (out, fresh, sp, w) =>
    match out with
    | [] => ([a], false, sp, w)
    | b :: rest =>
      if fresh = false ∧ a = b ∧ a ≠ Cell.M then
        (Cell.num (dblVal a) :: rest, true, sp, w || decide (dblVal a = 2048))
      else if fresh = false ∧ a = Cell.M ∧ b = Cell.M then
        (Cell.num 0 :: rest, true, true, w)
      else (a :: out, false, sp, w)

def mergeFoldStep (acc : List Cell × Bool × Bool × Bool) (a : Cell) :
    List Cell × Bool × Bool × Bool :=
  mergeStep a acc

/-- Direct right-to-left merge of a compacted row: the rightmost adjacent
equal pair merges first. -/
def mergeRowBack (l : List Cell) : List Cell × Bool × Bool :=
  match l.foldr mergeStep ([], false, false, false) with
  | (out, _, sp, w) => (out, sp, w)

/-- Direct right move of one row: compact keeping order, merge from the
right, pad with zeros on the left. -/
def moveRowRightDirect (n : Nat) (row : List Cell) : List Cell × Bool × Bool :=
  let r := mergeRowBack (compactRow row)
  (List.replicate (n - r.1.length) (Cell.num 0) ++ r.1, r.2.1, r.2.2)

/-- Direct right move of the grid: every row moved right, with the same
flag conventions as the row loop of `move_left`. -/
def moveGridRightDirect (n : Nat) (g : List (List Cell)) : MoveOut where
  grid := g.map fun row => (moveRowRightDirect n row).1
  moved := g.any fun row => (moveRowRightDirect n row).1 ≠ row
  special := g.any fun row => (moveRowRightDirect n row).2.1
  won2048 := g.any fun row => (moveRowRightDirect n row).2.2

/-- Column `j` of a grid. -/
def colOf (g : List (List Cell)) (j : Nat) : List Cell :=
  g.map fun row => row.getD j (Cell.num 0)

/-- Direct up move: every column is the canonical left-moved (i.e.
top-compacted) column; entry `(i, j)` of the result is position `i` of
the moved column `j`. -/
def moveGridUpDirect (n : Nat) (g : List (List Cell)) : MoveOut where
  grid := (List.range n).map fun i => (List.range n).map fun j =>
    ((moveRowLeft n (colOf g j)).1).getD i (Cell.num 0)
  moved := (List.range n).any fun j => (moveRowLeft n (colOf g j)).1 ≠ colOf g j
  special := (List.range n).any fun j => (moveRowLeft n (colOf g j)).2.1
  won2048 := (List.range n).any fun j => (moveRowLeft n (colOf g j)).2.2

/-- Direct down move: every column moved toward the bottom (the direct
right move applied to the column read top-to-bottom). -/
def moveGridDownDirect (n : Nat) (g : List (List Cell)) : MoveOut where
  grid := (List.range n).map fun i => (List.range n).map fun j =>
    ((moveRowRightDirect n (colOf g j)).1).getD i (Cell.num 0)
  moved := (List.range n).any fun j => (moveRowRightDirect n (colOf g j)).1 ≠ colOf g j
  special := (List.range n).any fun j => (moveRowRightDirect n (colOf g j)).2.1
  won2048 := (List.range n).any fun j => (moveRowRightDirect n (colOf g j)).2.2

/-- The pure grid transformation each directional method performs: the
transforms `move_right` / `move_up` / `move_down` wrap around the row
loop of `move_left`, exactly as in the source. -/
def moveOutDir (d : Dir) (n : Nat) (g : List (List Cell)) : MoveOut :=
  match d with
  | Dir.left => moveLeftRows n g
  | Dir.right =>
    let o := moveLeftRows n (g.map List.reverse)
    ⟨o.grid.map List.reverse, o.moved, o.special, o.won2048⟩
  | Dir.up =>
    let o := moveLeftRows n (transposeG g)
    ⟨transposeG o.grid, o.moved, o.special, o.won2048⟩
  | Dir.down =>
    let o := moveLeftRows n ((transposeG g).map List.reverse)
    ⟨transposeG (o.grid.map List.reverse), o.moved, o.special, o.won2048⟩

/-- Safety of an accumulator for the merge fold: the next input cell must
not silently merge into a head that the left-to-right reference scan
would not have merged. -/
def SafeAcc (l out : List Cell) (fresh : Bool) : Prop :=
  match l, out with
  | a :: _, b :: _ => fresh = true ∨ a ≠ b
  | _, _ => True

theorem mergeStep_push (a : Cell) (out : List Cell) (fresh sp w : Bool)
    (h : match out with | b :: _ => fresh = true ∨ a ≠ b | [] => True) :
    mergeStep a (out, fresh, sp, w) = (a :: out, false, sp, w) := by
  cases out with
  | nil => rfl
  | cons b rest =>
    show (if fresh = false ∧ a = b ∧ a ≠ Cell.M then _
      else if fresh = false ∧ a = Cell.M ∧ b = Cell.M then _ else _) = _
    rcases h with hf | hne
    · subst hf
      rw [if_neg (by simp), if_neg (by simp)]
    · rw [if_neg (fun hc => hne hc.2.1), if_neg (fun hc => hne (hc.2.1.trans hc.2.2.symm))]

theorem foldl_mergeStep (l : List Cell) : ∀ (out : List Cell) (fresh sp w : Bool),
    SafeAcc l out fresh →
    (l.foldl mergeFoldStep (out, fresh, sp, w)).1 = (mergeRow l).1.reverse ++ out
      ∧ (l.foldl mergeFoldStep (out, fresh, sp, w)).2.2.1 = (sp || (mergeRow l).2.1)
      ∧ (l.foldl mergeFoldStep (out, fresh, sp, w)).2.2.2 = (w || (mergeRow l).2.2) := by
  induction l using mergeRow.induct with
  | case1 =>
    intro out fresh sp w _
    exact ⟨rfl, by simp [mergeRow], by simp [mergeRow]⟩
  | case2 a =>
    intro out fresh sp w hsafe
    have hstep : mergeStep a (out, fresh, sp, w) = (a :: out, false, sp, w) := by
      refine mergeStep_push a out fresh sp w ?_
      cases out with
      | nil => trivial
      | cons b rest => exact hsafe
    rw [List.foldl_cons, List.foldl_nil,
      show mergeFoldStep (out, fresh, sp, w) a = mergeStep a (out, fresh, sp, w) from rfl,
      hstep]
    exact ⟨rfl, by simp [mergeRow], by simp [mergeRow]⟩
  | case3 a b rest hc ih =>
    intro out fresh sp w hsafe
    have hmr : mergeRow (a :: b :: rest)
        = (Cell.num (dblVal a) :: (mergeRow rest).1, (mergeRow rest).2.1,
          (mergeRow rest).2.2 || decide (dblVal a = 2048)) := by
      simp only [mergeRow, if_pos hc]
    have hstep1 : mergeStep a (out, fresh, sp, w) = (a :: out, false, sp, w) := by
      refine mergeStep_push a out fresh sp w ?_
      cases out with
      | nil => trivial
      | cons x xs => exact hsafe
    have hstep2 : mergeStep b (a :: out, false, sp, w)
        = (Cell.num (dblVal b) :: out, true, sp, w || decide (dblVal b = 2048)) := by
      show (if false = false ∧ b = a ∧ b ≠ Cell.M then _
        else if false = false ∧ b = Cell.M ∧ a = Cell.M then _ else _) = _
      rw [if_pos ⟨rfl, hc.1.symm, hc.1 ▸ hc.2⟩]
    rw [List.foldl_cons, List.foldl_cons,
      show mergeFoldStep (out, fresh, sp, w) a = mergeStep a (out, fresh, sp, w) from rfl,
      hstep1,
      show mergeFoldStep (a :: out, false, sp, w) b = mergeStep b (a :: out, false, sp, w)
        from rfl,
      hstep2]
    obtain ⟨k1, k2, k3⟩ := ih (Cell.num (dblVal b) :: out) true sp
      (w || decide (dblVal b = 2048))
      (by cases rest with | nil => trivial | cons x xs => exact Or.inl rfl)
    refine ⟨?_, ?_, ?_⟩
    · rw [k1, hmr, hc.1, List.reverse_cons, List.append_assoc]
      rfl
    · rw [k2, hmr]
    · rw [k3, hmr, hc.1, Bool.or_assoc,
        Bool.or_comm (decide (dblVal b = 2048)) ((mergeRow rest).2.2)]
  | case4 a b rest h1 h2 ih =>
    intro out fresh sp w hsafe
    have hmr : mergeRow (a :: b :: rest)
        = (Cell.num 0 :: (mergeRow rest).1, true, (mergeRow rest).2.2) := by
      simp only [mergeRow, if_neg h1, if_pos h2]
    have hstep1 : mergeStep a (out, fresh, sp, w) = (a :: out, false, sp, w) := by
      refine mergeStep_push a out fresh sp w ?_
      cases out with
      | nil => trivial
      | cons x xs => exact hsafe
    have hstep2 : mergeStep b (a :: out, false, sp, w) = (Cell.num 0 :: out, true, true, w) := by
      show (if false = false ∧ b = a ∧ b ≠ Cell.M then _
        else if false = false ∧ b = Cell.M ∧ a = Cell.M then _ else _) = _
      rw [if_neg (fun hx => hx.2.2 h2.2), if_pos ⟨rfl, h2.2, h2.1⟩]
    rw [List.foldl_cons, List.foldl_cons,
      show mergeFoldStep (out, fresh, sp, w) a = mergeStep a (out, fresh, sp, w) from rfl,
      hstep1,
      show mergeFoldStep (a :: out, false, sp, w) b = mergeStep b (a :: out, false, sp, w)
        from rfl,
      hstep2]
    obtain ⟨k1, k2, k3⟩ := ih (Cell.num 0 :: out) true true w
      (by cases rest with | nil => trivial | cons x xs => exact Or.inl rfl)
    refine ⟨?_, ?_, ?_⟩
    · rw [k1, hmr, List.reverse_cons, List.append_assoc]
      rfl
    · rw [k2, hmr, Bool.true_or, Bool.or_true]
    · rw [k3, hmr]
  | case5 a b rest h1 h2 ih =>
    intro out fresh sp w hsafe
    have hab : a ≠ b := by
      intro he
      by_cases hM : a = Cell.M
      · exact h2 ⟨hM, he ▸ hM⟩
      · exact h1 ⟨he, hM⟩
    have hmr : mergeRow (a :: b :: rest)
        = (a :: (mergeRow (b :: rest)).1, (mergeRow (b :: rest)).2.1,
          (mergeRow (b :: rest)).2.2) := by
      simp only [mergeRow, if_neg h1, if_neg h2]
    have hstep1 : mergeStep a (out, fresh, sp, w) = (a :: out, false, sp, w) := by
      refine mergeStep_push a out fresh sp w ?_
      cases out with
      | nil => trivial
      | cons x xs => exact hsafe
    rw [List.foldl_cons,
      show mergeFoldStep (out, fresh, sp, w) a = mergeStep a (out, fresh, sp, w) from rfl,
      hstep1]
    obtain ⟨k1, k2, k3⟩ := ih (a :: out) false sp w (Or.inr fun he => hab he.symm)
    refine ⟨?_, ?_, ?_⟩
    · rw [k1, hmr, List.reverse_cons, List.append_assoc]
      rfl
    · rw [k2, hmr]
    · rw [k3, hmr]

theorem mergeRowBack_eq (l : List Cell) :
    mergeRowBack l = ((mergeRow l.reverse).1.reverse,
      (mergeRow l.reverse).2.1, (mergeRow l.reverse).2.2) := by
  have hsafe : SafeAcc l.reverse [] false := by
    unfold SafeAcc
    cases l.reverse <;> trivial
  obtain ⟨k1, k2, k3⟩ := foldl_mergeStep l.reverse [] false false false hsafe
  have hfold : l.foldr mergeStep ([], false, false, false)
      = (l.reverse).foldl mergeFoldStep ([], false, false, false) := by
    rw [List.foldl_reverse]
    rfl
  unfold mergeRowBack
  rw [hfold]
  show (((l.reverse).foldl mergeFoldStep ([], false, false, false)).1,
    ((l.reverse).foldl mergeFoldStep ([], false, false, false)).2.2.1,
    ((l.reverse).foldl mergeFoldStep ([], false, false, false)).2.2.2) = _
  rw [k1, k2, k3, List.append_nil, Bool.false_or, Bool.false_or]

theorem compactRow_reverse (row : List Cell) :
    compactRow row.reverse = (compactRow row).reverse :=
  List.filter_reverse _ _

theorem moveRowRightDirect_eq (n : Nat) (row : List Cell) :
    moveRowRightDirect n row
      = ((moveRowLeft n row.reverse).1.reverse,
        (moveRowLeft n row.reverse).2.1, (moveRowLeft n row.reverse).2.2) := by
  unfold moveRowRightDirect moveRowLeft
  dsimp only
  rw [compactRow_reverse]
  simp only [mergeRowBack_eq]
  rw [List.reverse_append, List.reverse_replicate, List.length_reverse]

theorem any_map_general {α β : Type} (f : α → β) (l : List α) (p : β → Bool) :
    (l.map f).any p = l.any fun a => p (f a) := by
  induction l with
  | nil => rfl
  | cons a t ih => simp [ih]

theorem decide_ne_reverse (x row : List Cell) :
    decide (x ≠ row.reverse) = decide (x.reverse ≠ row) := by
  rw [decide_eq_decide]
  constructor
  · intro h hc
    exact h (by rw [← hc, List.reverse_reverse])
  · intro h hc
    exact h (by rw [hc, List.reverse_reverse])

theorem MoveOut_fields_eq {o1 o2 : MoveOut} (h1 : o1.grid = o2.grid)
    (h2 : o1.moved = o2.moved) (h3 : o1.special = o2.special)
    (h4 : o1.won2048 = o2.won2048) : o1 = o2 := by
  cases o1
  cases o2
  cases h1
  cases h2
  cases h3
  cases h4
  rfl

theorem moveOut_right_eq (n : Nat) (g : List (List Cell)) :
    moveOutDir Dir.right n g = moveGridRightDirect n g := by
  refine MoveOut_fields_eq ?_ ?_ ?_ ?_
  · show (((g.map List.reverse).map fun row => (moveRowLeft n row).1).map List.reverse)
      = g.map fun row => (moveRowRightDirect n row).1
    rw [List.map_map, List.map_map]
    refine List.map_congr_left fun row _ => ?_
    show ((moveRowLeft n row.reverse).1).reverse = (moveRowRightDirect n row).1
    simp [moveRowRightDirect_eq]
  · show ((g.map List.reverse).any fun row => decide ((moveRowLeft n row).1 ≠ row))
      = g.any fun row => decide ((moveRowRightDirect n row).1 ≠ row)
    rw [any_map_general]
    refine congrArg g.any (funext fun row => ?_)
    show decide ((moveRowLeft n row.reverse).1 ≠ row.reverse) = _
    rw [decide_ne_reverse]
    simp [moveRowRightDirect_eq]
  · show ((g.map List.reverse).any fun row => (moveRowLeft n row).2.1)
      = g.any fun row => (moveRowRightDirect n row).2.1
    rw [any_map_general]
    refine congrArg g.any (funext fun row => ?_)
    simp [moveRowRightDirect_eq]
  · show ((g.map List.reverse).any fun row => (moveRowLeft n row).2.2)
      = g.any fun row => (moveRowRightDirect n row).2.2
    rw [any_map_general]
    refine congrArg g.any (funext fun row => ?_)
    simp [moveRowRightDirect_eq]

theorem colOf_length (g : List (List Cell)) (j : Nat) : (colOf g j).length = g.length :=
  List.length_map ..

theorem WFG_movedCols {n : Nat} {g : List (List Cell)} (hwf : WFG n g) :
    WFG n ((List.range n).map fun j => (moveRowLeft n (colOf g j)).1) := by
  constructor
  · rw [List.length_map, List.length_range]
  · intro row hrow
    obtain ⟨j, hj, heq⟩ := List.mem_map.1 hrow
    rw [← heq]
    exact moveRowLeft_length n _ (by rw [colOf_length, hwf.1])

theorem WFG_movedColsBack {n : Nat} {g : List (List Cell)} (hwf : WFG n g) :
    WFG n ((List.range n).map fun j => (moveRowRightDirect n (colOf g j)).1) := by
  constructor
  · rw [List.length_map, List.length_range]
  · intro row hrow
    obtain ⟨j, hj, heq⟩ := List.mem_map.1 hrow
    rw [← heq]
    rw [show (moveRowRightDirect n (colOf g j)).1
      = ((moveRowLeft n (colOf g j).reverse).1).reverse from by simp [moveRowRightDirect_eq]]
    rw [List.length_reverse]
    exact moveRowLeft_length n _ (by rw [List.length_reverse, colOf_length, hwf.1])

theorem transposeG_eq_col {n : Nat} {g : List (List Cell)} (h : WFG n g) :
    transposeG g = (List.range n).map fun j => colOf g j :=
  transposeG_eq h

theorem moveOut_up_eq {n : Nat} {g : List (List Cell)} (hwf : WFG n g) :
    moveOutDir Dir.up n g = moveGridUpDirect n g := by
  refine MoveOut_fields_eq ?_ ?_ ?_ ?_
  · show transposeG ((transposeG g).map fun row => (moveRowLeft n row).1)
      = (List.range n).map fun i => (List.range n).map fun j =>
        ((moveRowLeft n (colOf g j)).1).getD i (Cell.num 0)
    rw [transposeG_eq_col hwf, List.map_map]
    simp only [Function.comp_def]
    rw [transposeG_eq (WFG_movedCols hwf)]
    refine List.map_congr_left fun i _ => ?_
    rw [List.map_map]
    rfl
  · show ((transposeG g).any fun row => decide ((moveRowLeft n row).1 ≠ row))
      = (List.range n).any fun j => decide ((moveRowLeft n (colOf g j)).1 ≠ colOf g j)
    rw [transposeG_eq_col hwf, any_map_general]
  · show ((transposeG g).any fun row => (moveRowLeft n row).2.1)
      = (List.range n).any fun j => (moveRowLeft n (colOf g j)).2.1
    rw [transposeG_eq_col hwf, any_map_general]
  · show ((transposeG g).any fun row => (moveRowLeft n row).2.2)
      = (List.range n).any fun j => (moveRowLeft n (colOf g j)).2.2
    rw [transposeG_eq_col hwf, any_map_general]

theorem moveOut_down_eq {n : Nat} {g : List (List Cell)} (hwf : WFG n g) :
    moveOutDir Dir.down n g = moveGridDownDirect n g := by
  refine MoveOut_fields_eq ?_ ?_ ?_ ?_
  · show transposeG ((((transposeG g).map List.reverse).map
        fun row => (moveRowLeft n row).1).map List.reverse)
      = (List.range n).map fun i => (List.range n).map fun j =>
        ((moveRowRightDirect n (colOf g j)).1).getD i (Cell.num 0)
    rw [transposeG_eq_col hwf, List.map_map, List.map_map, List.map_map]
    simp only [Function.comp_def]
    rw [show ((List.range n).map
        fun j => ((moveRowLeft n (colOf g j).reverse).1).reverse)
        = (List.range n).map fun j => (moveRowRightDirect n (colOf g j)).1 from
      List.map_congr_left fun j _ => by simp [moveRowRightDirect_eq]]
    rw [transposeG_eq (WFG_movedColsBack hwf)]
    refine List.map_congr_left fun i _ => ?_
    rw [List.map_map]
    rfl
  · show (((transposeG g).map List.reverse).any fun row => decide ((moveRowLeft n row).1 ≠ row))
      = (List.range n).any fun j => decide ((moveRowRightDirect n (colOf g j)).1 ≠ colOf g j)
    rw [transposeG_eq_col hwf, List.map_map, any_map_general]
    refine congrArg (List.range n).any (funext fun j => ?_)
    show decide ((moveRowLeft n (colOf g j).reverse).1 ≠ (colOf g j).reverse) = _
    rw [decide_ne_reverse]
    simp [moveRowRightDirect_eq]
  · show (((transposeG g).map List.reverse).any fun row => (moveRowLeft n row).2.1)
      = (List.range n).any fun j => (moveRowRightDirect n (colOf g j)).2.1
    rw [transposeG_eq_col hwf, List.map_map, any_map_general]
    refine congrArg (List.range n).any (funext fun j => ?_)
    simp [moveRowRightDirect_eq]
  · show (((transposeG g).map List.reverse).any fun row => (moveRowLeft n row).2.2)
      = (List.range n).any fun j => (moveRowRightDirect n (colOf g j)).2.2
    rw [transposeG_eq_col hwf, List.map_map, any_map_general]
    refine congrArg (List.range n).any (funext fun j => ?_)
    simp [moveRowRightDirect_eq]

/-- C9.  On every well-formed grid the conjugations the code performs —
right = reverse rows ∘ left ∘ reverse rows, up = transpose ∘ left ∘
transpose, down = transpose ∘ reverse ∘ left ∘ reverse ∘ transpose —
produce exactly the directly-defined directional moves (same resulting
grid, same `moved`, same marker/2048 flags); and the `moved` result each
state-level method returns is the flag pair of that conjugated
transformation. -/
theorem directional_moves_are_conjugated_left (n : Nat) (g : List (List Cell))
    (hwf : WFG n g) :
    moveOutDir Dir.right n g = moveGridRightDirect n g
      ∧ moveOutDir Dir.up n g = moveGridUpDirect n g
      ∧ moveOutDir Dir.down n g = moveGridDownDirect n g
      ∧ ∀ (c : Nat × Bool) (s : GameState) (d : Dir),
        (applyMove d c s).1
          = ((moveOutDir d s.size s.grid).moved || (moveOutDir d s.size s.grid).special) := by
  refine ⟨moveOut_right_eq n g, moveOut_up_eq hwf, moveOut_down_eq hwf, fun c s d => ?_⟩
  cases d
  · exact moveLeft_fired_cond c s
  · exact moveLeft_fired_cond c { s with grid := s.grid.map List.reverse }
  · exact moveLeft_fired_cond c { s with grid := transposeG s.grid }
  · exact moveLeft_fired_cond c { s with grid := (transposeG s.grid).map List.reverse }

/-- Witness for C9 at a concrete 2×2 grid with a mergeable row and a
marker pair. -/
theorem directional_moves_are_conjugated_left_witness :
    moveOutDir Dir.right 2 [[Cell.num 2, Cell.num 2], [Cell.M, Cell.M]]
        = moveGridRightDirect 2 [[Cell.num 2, Cell.num 2], [Cell.M, Cell.M]]
      ∧ moveOutDir Dir.up 2 [[Cell.num 2, Cell.num 2], [Cell.M, Cell.M]]
        = moveGridUpDirect 2 [[Cell.num 2, Cell.num 2], [Cell.M, Cell.M]]
      ∧ moveOutDir Dir.down 2 [[Cell.num 2, Cell.num 2], [Cell.M, Cell.M]]
        = moveGridDownDirect 2 [[Cell.num 2, Cell.num 2], [Cell.M, Cell.M]]
      ∧ ∀ (c : Nat × Bool) (s : GameState) (d : Dir),
        (applyMove d c s).1
          = ((moveOutDir d s.size s.grid).moved || (moveOutDir d s.size s.grid).special) :=
  directional_moves_are_conjugated_left 2 [[Cell.num 2, Cell.num 2], [Cell.M, Cell.M]]
    (by decide)

/-! ### C4: monotone high score -/

/-- The operations of one instance's lifetime that the C4 claim ranges
over: directional moves, resets, and state imports via `set_state`. -/
inductive LifeOp where
  | move (d : Dir) (c : Nat × Bool)
  | reset (c1 c2 : Nat × Bool)
  | imp (st : ImportedState)

def applyLifeOp (o : LifeOp) (s : GameState) : GameState :=
  match o with
  | LifeOp.move d c => (applyMove d c s).2
  | LifeOp.reset c1 c2 => resetGame c1 c2 s
  | LifeOp.imp st => setStateOp st s

def runLifeOps (ops : List LifeOp) (s : GameState) : GameState :=
  ops.foldl (fun t o => applyLifeOp o t) s

theorem applyLifeOp_high_le (o : LifeOp) (s : GameState) :
    s.high_score ≤ (applyLifeOp o s).high_score := by
  cases o with
  | move d c => exact applyMove_high_le d c s
  | reset c1 c2 =>
    show s.high_score ≤ (resetGame c1 c2 s).high_score
    unfold resetGame
    refine Nat.le_trans ?_ (updateScore_high_le _)
    rw [addNewTile_high, addNewTile_high]
  | imp st => exact Nat.le_max_left _ _

/-- C4.  Along any sequence of moves (any direction), resets and
`set_state` imports, `high_score` never decreases; and a `set_state`
sets it to the maximum of the existing and the imported high
score. -/
theorem high_score_monotone :
    (∀ (s : GameState) (ops : List LifeOp), s.high_score ≤ (runLifeOps ops s).high_score)
      ∧ ∀ (st : ImportedState) (s : GameState),
        (setStateOp st s).high_score = max s.high_score st.high_score := by
  constructor
  · intro s ops
    induction ops generalizing s with
    | nil => exact Nat.le_refl _
    | cons o rest ih =>
      exact Nat.le_trans (applyLifeOp_high_le o s) (ih (applyLifeOp o s))
  · intro st s
    rfl

/-! ### C5 (amended): `won` across moves and imports -/

/-- C5, amended.  Across moves, `won` is exactly the old flag or-ed with
"this move merged two tiles into 2048" (so it never reverts and flips
false→true only when a merge produces 2048); but `set_state` overwrites
`won` with the imported value unconditionally, so an import can revert
it. -/
theorem won_monotone_across_moves :
    (∀ (d : Dir) (c : Nat × Bool) (s : GameState),
        ((applyMove d c s).2).won = (s.won || (moveLeftRows s.size (dirGrid d s.grid)).won2048))
      ∧ (∀ (st : ImportedState) (s : GameState), (setStateOp st s).won = st.won)
      ∧ ∀ (s : GameState) (l : List (Dir × (Nat × Bool))), s.won = true →
          (l.foldl (fun t dc => (applyMove dc.1 dc.2 t).2) s).won = true := by
  refine ⟨applyMove_won_eq, fun _ _ => rfl, ?_⟩
  intro s l
  induction l generalizing s with
  | nil => exact fun h => h
  | cons dc rest ih =>
    intro h
    simp only [List.foldl_cons]
    exact ih _ (by rw [applyMove_won_eq, h, Bool.true_or])

/-- Witness for C5's amended theorem at a concrete won state and a
one-move sequence. -/
theorem won_monotone_across_moves_witness :
    ({ size := 1, grid := [[Cell.num 2048]], score := 2048, high_score := 2048,
       moves := 9, game_over := false, won := true } : GameState).won = true
      ∧ ([(Dir.left, (0, true))].foldl (fun t dc => (applyMove dc.1 dc.2 t).2)
          { size := 1, grid := [[Cell.num 2048]], score := 2048, high_score := 2048,
            moves := 9, game_over := false, won := true }).won = true :=
  ⟨rfl, won_monotone_across_moves.2.2 _ [(Dir.left, (0, true))] rfl⟩

end NumberGame
